import Mathlib

/-!
Shallow embedding of the trading-engine repository: the limit order book,
the price-time priority matching engine, the cancel operation, the order
validator and the order book service, translated from the TypeScript
sources (services/matchingEngine.ts, services/orderBookService.ts,
validator/orderValidator.ts, models/order.ts, models/orderbook.ts,
models/trade.ts).

Modelling conventions:
* Exact decimals (the DecimalValue facade over decimal.js) are modelled by
  the rationals.  On the matching path the source only adds, subtracts and
  compares decimals, which decimal.js performs exactly, and the canonical
  string used as a map key is injective on values, so keying maps directly
  by the rational value is faithful.
* JavaScript Map objects are modelled by association lists with
  first-occurrence lookup; Map.set replaces in place or appends, Map.delete
  removes the entry.  The source never iterates a Map.
* Date.now() is modelled by an external clock, a function from the index of
  the read to an integer; each call consumes one index.
* Thrown ValidationError is modelled by Except; the service rethrows it, so
  a failed validation aborts the batch.
* trade_id is kept as a natural number; the source stringifies the counter,
  which is injective.
-/

/-- Exact addition of rationals, written through mkRat so that concrete
instances evaluate by plain kernel reduction; decAdd_eq shows it is
ordinary rational addition.  Models DecimalValue.plus. -/
def decAdd (a b : ℚ) : ℚ := mkRat (a.num * b.den + b.num * a.den) (a.den * b.den)

/-- Exact subtraction of rationals; decSub_eq shows it is ordinary
rational subtraction.  Models DecimalValue.minus. -/
def decSub (a b : ℚ) : ℚ := mkRat (a.num * b.den - b.num * a.den) (a.den * b.den)

theorem decAdd_eq (a b : ℚ) : decAdd a b = a + b := by
  rw [Rat.add_def, Rat.normalize_eq_mkRat]; rfl

theorem decSub_eq (a b : ℚ) : decSub a b = a - b := by
  rw [Rat.sub_def, Rat.normalize_eq_mkRat]; rfl

instance {ε α : Type} [DecidableEq ε] [DecidableEq α] : DecidableEq (Except ε α) := fun x y =>
  match x, y with
  | .ok a, .ok b =>
    if h : a = b then isTrue (by rw [h]) else isFalse (by intro hc; injection hc; contradiction)
  | .error a, .error b =>
    if h : a = b then isTrue (by rw [h]) else isFalse (by intro hc; injection hc; contradiction)
  | .ok _, .error _ => isFalse (by intro hc; injection hc)
  | .error _, .ok _ => isFalse (by intro hc; injection hc)

/-- Key-value association list lookup, first occurrence wins (JS Map get). -/
def alLookup {κ α : Type} [DecidableEq κ] : List (κ × α) → κ → Option α
  | [], _ => none
  | kv :: rest, k => if kv.1 = k then some kv.2 else alLookup rest k

/-- JS Map set: replace the entry in place if the key is present, else append. -/
def alSet {κ α : Type} [DecidableEq κ] : List (κ × α) → κ → α → List (κ × α)
  | [], k, v => [(k, v)]
  | kv :: rest, k, v => if kv.1 = k then (k, v) :: rest else kv :: alSet rest k v

/-- JS Map delete: remove the entry with the given key. -/
def alErase {κ α : Type} [DecidableEq κ] : List (κ × α) → κ → List (κ × α)
  | [], _ => []
  | kv :: rest, k => if kv.1 = k then rest else kv :: alErase rest k

/-- Resting order entry inside a price level (models OrderBookEntry). -/
structure OrderBookEntry where
  order_id : String
  account_id : String
  amount : ℚ
  limit_price : ℚ
  timestamp : ℤ
deriving DecidableEq, Repr

/-- A price level: price, FIFO queue of entries, running total volume. -/
structure PriceLevel where
  price : ℚ
  orders : List OrderBookEntry
  totalVolume : ℚ
deriving DecidableEq, Repr

/-- One side of a book: keyed price levels plus the sorted prices array. -/
structure OrderBookSide where
  priceLevels : List (ℚ × PriceLevel)
  prices : List ℚ
deriving DecidableEq, Repr

/-- A per-pair order book. -/
structure OrderBook where
  pair : String
  bids : OrderBookSide
  asks : OrderBookSide
deriving DecidableEq, Repr

/-- Raw input command (models RawOrder; the numeric string fields are
modelled by their exact decimal values). -/
structure RawOrder where
  type_op : String
  account_id : String
  amount : ℚ
  order_id : String
  pair : String
  limit_price : ℚ
  side : String
deriving DecidableEq, Repr

/-- Promoted order (models Order): raw fields plus the assigned timestamp. -/
structure Order where
  type_op : String
  account_id : String
  amount : ℚ
  order_id : String
  pair : String
  limit_price : ℚ
  side : String
  timestamp : ℤ
deriving DecidableEq, Repr

/-- An executed trade (models Trade). -/
structure Trade where
  trade_id : ℕ
  pair : String
  maker_order_id : String
  taker_order_id : String
  maker_account_id : String
  taker_account_id : String
  amount : ℚ
  price : ℚ
  timestamp : ℤ
deriving DecidableEq, Repr

/-- State owned by OrderBookService plus the MatchingEngine counter and the
position of the external clock. -/
structure ServiceState where
  orderBooks : List (String × OrderBook)
  trades : List Trade
  nextTradeId : ℕ
  clockIdx : ℕ
deriving DecidableEq, Repr

/-- models/orderbook.ts createOrderBook. -/
def emptyBook (pair : String) : OrderBook := ⟨pair, ⟨[], []⟩, ⟨[], []⟩⟩

/-- models/order.ts createOrder: promote a raw command, attaching the
timestamp (the source default is the Date.now() reading at the call). -/
def createOrder (raw : RawOrder) (ts : ℤ) : Order :=
  ⟨raw.type_op, raw.account_id, raw.amount, raw.order_id, raw.pair,
    raw.limit_price, raw.side, ts⟩

/-- Result of MatchingEngine.matchAtPriceLevel on one level. -/
structure LevelMatchResult where
  trades : List Trade
  remaining : ℚ
  orders : List OrderBookEntry
  totalVolume : ℚ
  nextTid : ℕ
  clockIdx : ℕ
deriving DecidableEq, Repr

/-- MatchingEngine.matchAtPriceLevel: while the taker has remaining amount
and the level has orders, fill against the head maker; the fill is
DecimalValue.min of the two amounts; both amounts and the level volume are
decremented; a trade is emitted with the level price and a Date.now()
timestamp; the maker is dequeued when its amount is zero or negative.
When the head maker is kept, its new amount is positive, which forces the
fill to equal the whole taker amount, so the loop exits with remaining
zero; the non-recursive kept branch below is therefore the exact loop
behaviour. -/
def matchAtPriceLevel (c : ℕ → ℤ) (pair takerId takerAcct : String) (price : ℚ) :
    ℚ → ℚ → ℕ → ℕ → List OrderBookEntry → LevelMatchResult
  | amt, vol, tid, ci, [] => ⟨[], amt, [], vol, tid, ci⟩
  | amt, vol, tid, ci, m :: rest =>
    if 0 < amt then
      let fill := if amt < m.amount then amt else m.amount
      let amt' := decSub amt fill
      let mAmt' := decSub m.amount fill
      let vol' := decSub vol fill
      let tr : Trade := ⟨tid, pair, m.order_id, takerId, m.account_id, takerAcct,
        fill, price, c ci⟩
      if mAmt' ≤ 0 then
        let r := matchAtPriceLevel c pair takerId takerAcct price amt' vol' (tid + 1) (ci + 1) rest
        ⟨tr :: r.trades, r.remaining, r.orders, r.totalVolume, r.nextTid, r.clockIdx⟩
      else
        ⟨[tr], amt', { m with amount := mAmt' } :: rest, vol', tid + 1, ci + 1⟩
    else ⟨[], amt, m :: rest, vol, tid, ci⟩

/-- Result of the price walk of MatchingEngine.matchOrder. -/
structure SideMatchResult where
  trades : List Trade
  remaining : ℚ
  side : OrderBookSide
  nextTid : ℕ
  clockIdx : ℕ
deriving DecidableEq, Repr

/-- The while loop of MatchingEngine.matchOrder: walk the snapshot of the
opposite prices best first; stop on price incompatibility or when the
remaining amount reaches zero; skip stale prices with no level; after a
level match, delete the level from the keyed map when it emptied (the
source does not touch the prices array here).  When the level did not
empty the remaining amount is zero, so the loop exits. -/
def matchWalk (c : ℕ → ℤ) (pair takerId takerAcct sideName : String) (limit : ℚ) :
    ℚ → ℕ → ℕ → OrderBookSide → List ℚ → SideMatchResult
  | amt, tid, ci, oppo, [] => ⟨[], amt, oppo, tid, ci⟩
  | amt, tid, ci, oppo, p :: rest =>
    if 0 < amt then
      if (sideName = "BUY" ∧ p ≤ limit) ∨ (sideName = "SELL" ∧ limit ≤ p) then
        match alLookup oppo.priceLevels p with
        | none => matchWalk c pair takerId takerAcct sideName limit amt tid ci oppo rest
        | some L =>
          if L.orders = [] then
            matchWalk c pair takerId takerAcct sideName limit amt tid ci oppo rest
          else
            let r := matchAtPriceLevel c pair takerId takerAcct L.price amt L.totalVolume tid ci L.orders
            if r.orders = [] then
              let oppo' : OrderBookSide := { oppo with priceLevels := alErase oppo.priceLevels p }
              let r2 := matchWalk c pair takerId takerAcct sideName limit r.remaining r.nextTid r.clockIdx oppo' rest
              ⟨r.trades ++ r2.trades, r2.remaining, r2.side, r2.nextTid, r2.clockIdx⟩
            else
              let L' : PriceLevel := ⟨L.price, r.orders, r.totalVolume⟩
              ⟨r.trades, r.remaining,
                { oppo with priceLevels := alSet oppo.priceLevels p L' }, r.nextTid, r.clockIdx⟩
      else ⟨[], amt, oppo, tid, ci⟩
    else ⟨[], amt, oppo, tid, ci⟩

/-- Result of MatchingEngine.matchOrder. -/
structure MatchResult where
  trades : List Trade
  book : OrderBook
  nextTid : ℕ
  clockIdx : ℕ
deriving DecidableEq, Repr

/-- MatchingEngine.matchOrder: select the opposite side, return early when
it has no prices, otherwise walk a snapshot of the prices array.  The
source decrements only a shallow copy of the order, so the order object of
the caller keeps its original amount. -/
def matchOrder (c : ℕ → ℤ) (order : Order) (book : OrderBook) (tid ci : ℕ) : MatchResult :=
  let oppo := if order.side = "BUY" then book.asks else book.bids
  if oppo.prices = [] then ⟨[], book, tid, ci⟩
  else
    let r := matchWalk c book.pair order.order_id order.account_id order.side
      order.limit_price order.amount tid ci oppo oppo.prices
    if order.side = "BUY" then ⟨r.trades, { book with asks := r.side }, r.nextTid, r.clockIdx⟩
    else ⟨r.trades, { book with bids := r.side }, r.nextTid, r.clockIdx⟩

/-- The body of MatchingEngine.addToOrderBook acting on the selected side:
create the level lazily and re-sort the pushed prices array (descending
for bids, ascending for asks, read off order.side as in the source);
append the entry and bump the level volume. -/
def addToSide (order : Order) (side : OrderBookSide) : OrderBookSide :=
  let side1 : OrderBookSide :=
    if (alLookup side.priceLevels order.limit_price).isNone then
      { priceLevels := alSet side.priceLevels order.limit_price ⟨order.limit_price, [], 0⟩,
        prices :=
          if order.side = "BUY" then
            List.insertionSort (fun a b => b ≤ a) (side.prices ++ [order.limit_price])
          else
            List.insertionSort (fun a b => a ≤ b) (side.prices ++ [order.limit_price]) }
    else side
  let L := (alLookup side1.priceLevels order.limit_price).getD ⟨order.limit_price, [], 0⟩
  let entry : OrderBookEntry :=
    ⟨order.order_id, order.account_id, order.amount, order.limit_price, order.timestamp⟩
  let L' : PriceLevel := ⟨L.price, L.orders ++ [entry], decAdd L.totalVolume order.amount⟩
  { side1 with priceLevels := alSet side1.priceLevels order.limit_price L' }

/-- MatchingEngine.addToOrderBook: rest the order on its own side (BUY on
the bids, otherwise the asks). -/
def addToOrderBook (order : Order) (book : OrderBook) : OrderBook :=
  if order.side = "BUY" then { book with bids := addToSide order book.bids }
  else { book with asks := addToSide order book.asks }

/-- The findIndex plus splice of MatchingEngine.removeFromOrderBook: remove
the first entry with the given order id, returning it and the rest. -/
def removeEntry : List OrderBookEntry → String → Option (OrderBookEntry × List OrderBookEntry)
  | [], _ => none
  | e :: rest, oid =>
    if e.order_id = oid then some (e, rest)
    else (removeEntry rest oid).map (fun pr => (pr.1, e :: pr.2))

/-- The findIndex plus splice on the prices array: remove the first price
equal to the given one (the source compares canonical strings, which is
value equality); leave the list unchanged when absent. -/
def eraseFirstPrice : List ℚ → ℚ → List ℚ
  | [], _ => []
  | q :: rest, p => if q = p then rest else q :: eraseFirstPrice rest p

/-- The body of MatchingEngine.removeFromOrderBook acting on the selected
side: locate the level by the command limit price, scan for the order id,
splice the entry out, decrement the level volume, and when the level
emptied delete it and remove its price from the prices array.  None when
any lookup fails (the cancel returns false and changes nothing). -/
def removeFromSide (order : Order) (side : OrderBookSide) : Option OrderBookSide :=
  match alLookup side.priceLevels order.limit_price with
  | none => none
  | some L =>
    match removeEntry L.orders order.order_id with
    | none => none
    | some (e, orders') =>
      some (if orders' = [] then
        ⟨alErase side.priceLevels order.limit_price,
          eraseFirstPrice side.prices order.limit_price⟩
      else
        ⟨alSet side.priceLevels order.limit_price
          ⟨L.price, orders', decSub L.totalVolume e.amount⟩, side.prices⟩)

/-- MatchingEngine.removeFromOrderBook: apply the removal to the side the
command names (BUY bids, otherwise asks); false leaves the book intact. -/
def removeFromOrderBook (order : Order) (book : OrderBook) : Bool × OrderBook :=
  let side := if order.side = "BUY" then book.bids else book.asks
  match removeFromSide order side with
  | none => (false, book)
  | some side' =>
    (true,
      if order.side = "BUY" then { book with bids := side' } else { book with asks := side' })

/-- validator/orderValidator.ts validateOrder: field presence, side
membership, positive amount and price, and a slash in the pair.  Note
that type_op is only checked for presence, never for membership in
CREATE or DELETE. -/
def validateOrder (o : RawOrder) : Bool :=
  (o.type_op != "") && (o.account_id != "") && (o.order_id != "") &&
  (o.pair != "") && (o.side == "BUY" || o.side == "SELL") &&
  decide (0 < o.amount) && decide (0 < o.limit_price) && o.pair.data.contains '/'

/-- OrderBookService.processOrder lazy book creation (Map.set appends). -/
def ensureBook (st : ServiceState) (pair : String) : List (String × OrderBook) :=
  if alLookup st.orderBooks pair = none then st.orderBooks ++ [(pair, emptyBook pair)]
  else st.orderBooks

/-- The book processOrder operates on, after lazy creation. -/
def workingBook (st : ServiceState) (pair : String) : OrderBook :=
  (alLookup (ensureBook st pair) pair).getD (emptyBook pair)

/-- OrderBookService.processOrder: ensure the book exists, then dispatch on
type_op.  CREATE matches then rests when the caller-visible amount is
positive (the source reads the original, never-decremented amount).
DELETE cancels, ignoring the boolean.  Any other type_op falls through
with no dispatch, the lazily created book remaining. -/
def processOrder (c : ℕ → ℤ) (st : ServiceState) (order : Order) : ServiceState :=
  let books := ensureBook st order.pair
  let book := (alLookup books order.pair).getD (emptyBook order.pair)
  if order.type_op = "CREATE" then
    let r := matchOrder c order book st.nextTradeId st.clockIdx
    let book2 := if 0 < order.amount then addToOrderBook order r.book else r.book
    ⟨alSet books order.pair book2, st.trades ++ r.trades, r.nextTid, r.clockIdx⟩
  else if order.type_op = "DELETE" then
    let pr := removeFromOrderBook order book
    ⟨alSet books order.pair pr.2, st.trades, st.nextTradeId, st.clockIdx⟩
  else
    ⟨books, st.trades, st.nextTradeId, st.clockIdx⟩

/-- OrderBookService.processRawOrder: validate (a failure is rethrown),
promote with a Date.now() timestamp, then process. -/
def processRawOrder (c : ℕ → ℤ) (st : ServiceState) (raw : RawOrder) :
    Except String ServiceState :=
  if validateOrder raw then
    let order := createOrder raw (c st.clockIdx)
    .ok (processOrder c { st with clockIdx := st.clockIdx + 1 } order)
  else .error "ValidationError"

/-- OrderBookService.processRawOrders: process in input order; a thrown
validation error propagates and aborts the batch. -/
def processRawOrders (c : ℕ → ℤ) : List RawOrder → ServiceState → Except String ServiceState
  | [], st => .ok st
  | raw :: rest, st =>
    match processRawOrder c st raw with
    | .ok st' => processRawOrders c rest st'
    | .error e => .error e

/-- Fresh service state: no books, no trades, trade counter at 1, clock
position zero. -/
def initState : ServiceState := ⟨[], [], 1, 0⟩

/-- A full batch run on a fresh service. -/
def runService (c : ℕ → ℤ) (raws : List RawOrder) : Except String ServiceState :=
  processRawOrders c raws initState

/-- Total amount of a list of trades. -/
def tradesVolume (trs : List Trade) : ℚ := (trs.map Trade.amount).sum

/-- Total amount of a list of entries. -/
def entriesVolume (l : List OrderBookEntry) : ℚ := (l.map OrderBookEntry.amount).sum

/-- Resting volume of one side, summed over the keyed levels. -/
def sideVolume (s : OrderBookSide) : ℚ :=
  (s.priceLevels.map (fun kv => entriesVolume kv.2.orders)).sum

/-- Resting volume of a book. -/
def bookVolume (b : OrderBook) : ℚ := sideVolume b.bids + sideVolume b.asks

/-- Resting volume over every book of the service. -/
def restingVolume (st : ServiceState) : ℚ :=
  (st.orderBooks.map (fun kv => bookVolume kv.2)).sum

/-- serializeOrderBook on one side: walk the prices array in order, emit
the entries of each present level in FIFO order, skip stale prices. -/
def sideEntries (s : OrderBookSide) : List OrderBookEntry :=
  (s.prices.map (fun p =>
    match alLookup s.priceLevels p with
    | some L => L.orders
    | none => [])).flatten

/-- Book lookup in the service state. -/
def bookAt (st : ServiceState) (pair : String) : Option OrderBook :=
  alLookup st.orderBooks pair

/-- Serialized order book document of the service: for every pair, the bid
entries in prices order and the ask entries in prices order. -/
def serializedBooks (st : ServiceState) : List (String × List OrderBookEntry × List OrderBookEntry) :=
  st.orderBooks.map (fun kv => (kv.1, sideEntries kv.2.bids, sideEntries kv.2.asks))

/-- Ghost accumulator for auditing a run: total CREATE volume, total volume
of entries removed by accepted DELETEs, and the promotion timestamps in
processing order. -/
structure AuditAcc where
  created : ℚ
  deleted : ℚ
  stamps : List ℤ
deriving DecidableEq, Repr

/-- Empty audit accumulator. -/
def emptyAcc : AuditAcc := ⟨0, 0, []⟩

/-- Amount of the entry a DELETE would remove from a side (zero when the
cancel fails there). -/
def removedAmountOfSide (order : Order) (side : OrderBookSide) : ℚ :=
  match alLookup side.priceLevels order.limit_price with
  | none => 0
  | some L =>
    match removeEntry L.orders order.order_id with
    | none => 0
    | some pr => pr.1.amount

/-- Amount of the entry a DELETE would remove (zero when the cancel fails). -/
def removedAmountOf (order : Order) (book : OrderBook) : ℚ :=
  removedAmountOfSide order (if order.side = "BUY" then book.bids else book.asks)

/-- Audit bookkeeping for one accepted command: add the CREATE volume, the
volume removed by an accepted DELETE (computed against the book the step
operates on), and record the promotion timestamp. -/
def auditStep (c : ℕ → ℤ) (st : ServiceState) (raw : RawOrder) (acc : AuditAcc) : AuditAcc :=
  ⟨decAdd acc.created
      (if (createOrder raw (c st.clockIdx)).type_op = "CREATE" then
        (createOrder raw (c st.clockIdx)).amount else 0),
    decAdd acc.deleted
      (if (createOrder raw (c st.clockIdx)).type_op = "DELETE" ∧
          (removeFromOrderBook (createOrder raw (c st.clockIdx))
            (workingBook { st with clockIdx := st.clockIdx + 1 }
              (createOrder raw (c st.clockIdx)).pair)).1 = true then
        removedAmountOf (createOrder raw (c st.clockIdx))
          (workingBook { st with clockIdx := st.clockIdx + 1 }
            (createOrder raw (c st.clockIdx)).pair)
      else 0),
    acc.stamps ++ [(createOrder raw (c st.clockIdx)).timestamp]⟩

/-- processRawOrders instrumented with the audit accumulator; the service
state component evolves exactly as in processRawOrders (runAudit_ok). -/
def runAudit (c : ℕ → ℤ) : List RawOrder → ServiceState × AuditAcc →
    Except String (ServiceState × AuditAcc)
  | [], p => .ok p
  | raw :: rest, (st, acc) =>
    if validateOrder raw then
      runAudit c rest
        (processOrder c { st with clockIdx := st.clockIdx + 1 } (createOrder raw (c st.clockIdx)),
          auditStep c st raw acc)
    else .error "ValidationError"

/-- Erase the timestamp of an entry (all other fields kept). -/
def stripEntry (e : OrderBookEntry) : OrderBookEntry := { e with timestamp := 0 }

/-- Erase the timestamp of a trade (all other fields kept). -/
def stripTrade (t : Trade) : Trade := { t with timestamp := 0 }

/-- Erase the timestamp of a promoted order. -/
def stripOrder (o : Order) : Order := { o with timestamp := 0 }

/-- Erase every entry timestamp of a level. -/
def stripLevel (L : PriceLevel) : PriceLevel := { L with orders := L.orders.map stripEntry }

/-- Erase timestamps of one keyed level entry. -/
def stripKV (kv : ℚ × PriceLevel) : ℚ × PriceLevel := (kv.1, stripLevel kv.2)

/-- Erase every entry timestamp of a side. -/
def stripSide (s : OrderBookSide) : OrderBookSide :=
  { s with priceLevels := s.priceLevels.map stripKV }

/-- Erase every entry timestamp of a book. -/
def stripBook (b : OrderBook) : OrderBook :=
  { b with bids := stripSide b.bids, asks := stripSide b.asks }

/-- Erase the timestamps of one keyed book. -/
def stripBKV (kv : String × OrderBook) : String × OrderBook := (kv.1, stripBook kv.2)

/-- Erase every timestamp of the service state (book entries and trades);
everything else, including the clock position, is kept. -/
def stripState (st : ServiceState) : ServiceState :=
  ⟨st.orderBooks.map stripBKV, st.trades.map stripTrade, st.nextTradeId, st.clockIdx⟩

/-- One side is well formed when every keyed level has its price in the
prices array, the keys are free of duplicates, and every resting entry has
a strictly positive amount. -/
def SideWF (s : OrderBookSide) : Prop :=
  (∀ kv ∈ s.priceLevels, kv.1 ∈ s.prices) ∧
  (s.priceLevels.map Prod.fst).Nodup ∧
  (∀ kv ∈ s.priceLevels, ∀ e ∈ kv.2.orders, 0 < e.amount)

/-- Both sides of a book well formed. -/
def BookWF (b : OrderBook) : Prop := SideWF b.bids ∧ SideWF b.asks

/-- Every book of the service well formed. -/
def StateWF (st : ServiceState) : Prop := ∀ kv ∈ st.orderBooks, BookWF kv.2

/-- Sum of a rational measure over the values of an association list. -/
def alSum {κ α : Type} (m : List (κ × α)) (f : α → ℚ) : ℚ :=
  (m.map (fun kv => f kv.2)).sum

/-! Concrete sample inputs used to exercise the embedding on closed runs:
two external clocks (Date.now() frozen at two different wall times), a
resting SELL crossed by a BUY of the same size and price, the three BUYs
plus sweeping SELL of the README matching scenario, and a command with an
unrecognised type_op. -/

/-- A wall clock frozen at 0. -/
def clockZero : ℕ → ℤ := fun _ => 0

/-- A wall clock frozen at 1 (the same run started a tick later). -/
def clockOne : ℕ → ℤ := fun _ => 1

/-- A SELL of 10 at 50000 (order id S1). -/
def rawSell1 : RawOrder := ⟨"CREATE", "2", 10, "S1", "BTC/USDC", 50000, "SELL"⟩

/-- A BUY of 10 at 50000 (order id B1): crosses rawSell1 exactly. -/
def rawBuy1 : RawOrder := ⟨"CREATE", "1", 10, "B1", "BTC/USDC", 50000, "BUY"⟩

/-- Scenario: resting BUY of 10 at 49000 (id 1). -/
def scnBuy1 : RawOrder := ⟨"CREATE", "A1", 10, "1", "BTC/USDC", 49000, "BUY"⟩

/-- Scenario: resting BUY of 10 at 50000 (id 2). -/
def scnBuy2 : RawOrder := ⟨"CREATE", "A2", 10, "2", "BTC/USDC", 50000, "BUY"⟩

/-- Scenario: resting BUY of 10 at 51000 (id 3). -/
def scnBuy3 : RawOrder := ⟨"CREATE", "A3", 10, "3", "BTC/USDC", 51000, "BUY"⟩

/-- Scenario: SELL of 25 at 49000 (id 4), sweeping the book down to 49000. -/
def scnSell4 : RawOrder := ⟨"CREATE", "A4", 25, "4", "BTC/USDC", 49000, "SELL"⟩

/-- A command with type_op UPDATE, otherwise well formed. -/
def rawUpdate : RawOrder := ⟨"UPDATE", "A", 1, "9", "X/Y", 1, "BUY"⟩

/-- The final state of the run of rawSell1 then rawBuy1 under clockZero:
the trade of 10 at 50000, B1 resting in full on the bids (the shallow-copy
bug), the emptied ask level gone from the keyed map but its price still in
the prices array, three clock reads consumed. -/
def runPairState : ServiceState :=
  ⟨[("BTC/USDC",
    ⟨"BTC/USDC",
      ⟨[(50000, ⟨50000, [⟨"B1", "1", 10, 50000, 0⟩], 10⟩)], [50000]⟩,
      ⟨[], [50000]⟩⟩)],
    [⟨1, "BTC/USDC", "S1", "B1", "2", "1", 10, 50000, 0⟩], 2, 3⟩

/-- The audit accumulator of that run: 20 created, nothing deleted, both
promotions stamped at wall time 0. -/
def runPairAcc : AuditAcc := ⟨20, 0, [0, 0]⟩

/-- A book with a single resting SELL of 10 at 50000 on the asks (the book
state after rawSell1 rests). -/
def bookAsk1 : OrderBook :=
  ⟨"BTC/USDC", ⟨[], []⟩, ⟨[(50000, ⟨50000, [⟨"S1", "2", 10, 50000, 0⟩], 10⟩)], [50000]⟩⟩

/-- The promoted BUY order of rawBuy1 at wall time 0. -/
def orderBuy1 : Order := createOrder rawBuy1 0

/-- A DELETE command aimed at the resting entry B1 of runPairState. -/
def orderDelB1 : Order := ⟨"DELETE", "1", 0, "B1", "BTC/USDC", 50000, "BUY", 0⟩

/-- The single book of runPairState: B1 resting alone on the bids at
50000, the ask side emptied but its price still listed. -/
def runPairBook : OrderBook :=
  ⟨"BTC/USDC",
    ⟨[(50000, ⟨50000, [⟨"B1", "1", 10, 50000, 0⟩], 10⟩)], [50000]⟩,
    ⟨[], [50000]⟩⟩

/-! Association list lemmas. -/

theorem alLookup_some_mem {κ α : Type} [DecidableEq κ] {m : List (κ × α)} {k : κ} {v : α}
    (h : alLookup m k = some v) : (k, v) ∈ m := by
  induction m with
  | nil => simp [alLookup] at h
  | cons kv rest ih =>
    obtain ⟨k1, v1⟩ := kv
    by_cases hk : k1 = k
    · subst hk
      rw [alLookup, if_pos rfl] at h
      injection h with h
      subst h
      exact List.mem_cons_self _ _
    · rw [alLookup, if_neg hk] at h
      exact List.mem_cons_of_mem _ (ih h)

theorem alLookup_eq_none_of_not_mem {κ α : Type} [DecidableEq κ] {m : List (κ × α)} {k : κ}
    (h : k ∉ m.map Prod.fst) : alLookup m k = none := by
  induction m with
  | nil => rfl
  | cons kv rest ih =>
    simp only [List.map_cons, List.mem_cons] at h
    push_neg at h
    rw [alLookup, if_neg (fun he => h.1 he.symm)]
    exact ih h.2

theorem alLookup_mem_keys {κ α : Type} [DecidableEq κ] {m : List (κ × α)} {k : κ} {v : α}
    (h : alLookup m k = some v) : k ∈ m.map Prod.fst := by
  exact List.mem_map.mpr ⟨(k, v), alLookup_some_mem h, rfl⟩

theorem alLookup_alSet_self {κ α : Type} [DecidableEq κ] (m : List (κ × α)) (k : κ) (v : α) :
    alLookup (alSet m k v) k = some v := by
  induction m with
  | nil => simp [alSet, alLookup]
  | cons kv rest ih =>
    by_cases hk : kv.1 = k
    · simp [alSet, alLookup, hk]
    · simp [alSet, alLookup, hk, ih]

theorem alLookup_alSet_ne {κ α : Type} [DecidableEq κ] {m : List (κ × α)} {k k' : κ} (v : α)
    (hne : k' ≠ k) : alLookup (alSet m k v) k' = alLookup m k' := by
  have hks : k ≠ k' := fun h => hne h.symm
  induction m with
  | nil => simp [alSet, alLookup, hks]
  | cons kv rest ih =>
    by_cases hk : kv.1 = k
    · rw [alSet, if_pos hk, alLookup, if_neg (fun h => hne h.symm), alLookup,
        if_neg (by rw [hk]; exact fun h => hne h.symm)]
    · rw [alSet, if_neg hk, alLookup, alLookup]
      by_cases hk' : kv.1 = k'
      · simp [hk']
      · simp [hk', ih]

theorem mem_alSet {κ α : Type} [DecidableEq κ] {m : List (κ × α)} {k : κ} {v : α} {p : κ × α}
    (h : p ∈ alSet m k v) : p = (k, v) ∨ p ∈ m := by
  induction m with
  | nil => simpa [alSet] using h
  | cons kv rest ih =>
    by_cases hk : kv.1 = k
    · rw [alSet, if_pos hk] at h
      rcases List.mem_cons.mp h with h | h
      · exact Or.inl h
      · exact Or.inr (List.mem_cons_of_mem _ h)
    · rw [alSet, if_neg hk] at h
      rcases List.mem_cons.mp h with h | h
      · exact Or.inr (h ▸ List.mem_cons_self _ _)
      · rcases ih h with h | h
        · exact Or.inl h
        · exact Or.inr (List.mem_cons_of_mem _ h)

theorem mem_alErase {κ α : Type} [DecidableEq κ] {m : List (κ × α)} {k : κ} {p : κ × α}
    (h : p ∈ alErase m k) : p ∈ m := by
  induction m with
  | nil => simpa [alErase] using h
  | cons kv rest ih =>
    by_cases hk : kv.1 = k
    · rw [alErase, if_pos hk] at h
      exact List.mem_cons_of_mem _ h
    · rw [alErase, if_neg hk] at h
      rcases List.mem_cons.mp h with h | h
      · exact h ▸ List.mem_cons_self _ _
      · exact List.mem_cons_of_mem _ (ih h)

theorem alSet_keys_of_some {κ α : Type} [DecidableEq κ] {m : List (κ × α)} {k : κ} {v : α}
    (h : alLookup m k = some v) (w : α) :
    (alSet m k w).map Prod.fst = m.map Prod.fst := by
  induction m with
  | nil => simp [alLookup] at h
  | cons kv rest ih =>
    rw [alLookup] at h
    by_cases hk : kv.1 = k
    · simp [alSet, hk]
    · rw [if_neg hk] at h
      simp [alSet, hk, ih h]

theorem alSet_keys_of_none {κ α : Type} [DecidableEq κ] {m : List (κ × α)} {k : κ}
    (h : alLookup m k = none) (w : α) :
    (alSet m k w).map Prod.fst = m.map Prod.fst ++ [k] := by
  induction m with
  | nil => simp [alSet]
  | cons kv rest ih =>
    rw [alLookup] at h
    by_cases hk : kv.1 = k
    · simp [hk] at h
    · rw [if_neg hk] at h
      simp [alSet, hk, ih h]

theorem alErase_keys_sublist {κ α : Type} [DecidableEq κ] (m : List (κ × α)) (k : κ) :
    ((alErase m k).map Prod.fst).Sublist (m.map Prod.fst) := by
  induction m with
  | nil => simp [alErase]
  | cons kv rest ih =>
    by_cases hk : kv.1 = k
    · rw [alErase, if_pos hk]
      exact (List.sublist_cons_self _ _)
    · rw [alErase, if_neg hk]
      simpa using ih.cons₂ kv.1

theorem alLookup_alErase_ne {κ α : Type} [DecidableEq κ] {m : List (κ × α)} {k k' : κ}
    (hne : k' ≠ k) : alLookup (alErase m k) k' = alLookup m k' := by
  induction m with
  | nil => rfl
  | cons kv rest ih =>
    by_cases hk : kv.1 = k
    · rw [alErase, if_pos hk, alLookup, if_neg (by rw [hk]; exact fun h => hne h.symm)]
    · rw [alErase, if_neg hk, alLookup, alLookup]
      by_cases hk' : kv.1 = k'
      · simp [hk']
      · simp [hk', ih]

theorem alLookup_alErase_self {κ α : Type} [DecidableEq κ] {m : List (κ × α)} {k : κ}
    (hnd : (m.map Prod.fst).Nodup) : alLookup (alErase m k) k = none := by
  induction m with
  | nil => rfl
  | cons kv rest ih =>
    simp only [List.map_cons, List.nodup_cons] at hnd
    by_cases hk : kv.1 = k
    · rw [alErase, if_pos hk]
      exact alLookup_eq_none_of_not_mem (hk ▸ hnd.1)
    · rw [alErase, if_neg hk, alLookup, if_neg hk]
      exact ih hnd.2

theorem alSum_alSet_some {κ α : Type} [DecidableEq κ] {m : List (κ × α)} {k : κ} {v : α}
    (h : alLookup m k = some v) (w : α) (f : α → ℚ) :
    alSum (alSet m k w) f = alSum m f - f v + f w := by
  induction m with
  | nil => simp [alLookup] at h
  | cons kv rest ih =>
    rw [alLookup] at h
    by_cases hk : kv.1 = k
    · rw [if_pos hk] at h
      injection h with h
      simp only [alSet, if_pos hk, alSum, List.map_cons, List.sum_cons, h]
      ring
    · rw [if_neg hk] at h
      simp only [alSet, if_neg hk, alSum, List.map_cons, List.sum_cons]
      have := ih h
      simp only [alSum] at this
      rw [this]
      ring

theorem alSum_alSet_none {κ α : Type} [DecidableEq κ] {m : List (κ × α)} {k : κ}
    (h : alLookup m k = none) (w : α) (f : α → ℚ) :
    alSum (alSet m k w) f = alSum m f + f w := by
  induction m with
  | nil => simp [alSet, alSum]
  | cons kv rest ih =>
    rw [alLookup] at h
    by_cases hk : kv.1 = k
    · simp [hk] at h
    · rw [if_neg hk] at h
      simp only [alSet, if_neg hk, alSum, List.map_cons, List.sum_cons]
      have := ih h
      simp only [alSum] at this
      rw [this]
      ring

theorem alSum_alErase_some {κ α : Type} [DecidableEq κ] {m : List (κ × α)} {k : κ} {v : α}
    (h : alLookup m k = some v) (f : α → ℚ) :
    alSum (alErase m k) f = alSum m f - f v := by
  induction m with
  | nil => simp [alLookup] at h
  | cons kv rest ih =>
    rw [alLookup] at h
    by_cases hk : kv.1 = k
    · rw [if_pos hk] at h
      injection h with h
      simp only [alErase, if_pos hk, alSum, List.map_cons, List.sum_cons, h]
      ring
    · rw [if_neg hk] at h
      simp only [alErase, if_neg hk, alSum, List.map_cons, List.sum_cons]
      have := ih h
      simp only [alSum] at this
      rw [this]
      ring

/-! Lemmas on removeEntry, eraseFirstPrice and the volume sums. -/

theorem entriesVolume_nil : entriesVolume [] = 0 := rfl

theorem entriesVolume_cons (e : OrderBookEntry) (l : List OrderBookEntry) :
    entriesVolume (e :: l) = e.amount + entriesVolume l := by
  simp [entriesVolume]

theorem entriesVolume_append (l₁ l₂ : List OrderBookEntry) :
    entriesVolume (l₁ ++ l₂) = entriesVolume l₁ + entriesVolume l₂ := by
  simp [entriesVolume]

theorem tradesVolume_nil : tradesVolume [] = 0 := rfl

theorem tradesVolume_cons (t : Trade) (l : List Trade) :
    tradesVolume (t :: l) = t.amount + tradesVolume l := by
  simp [tradesVolume]

theorem tradesVolume_append (l₁ l₂ : List Trade) :
    tradesVolume (l₁ ++ l₂) = tradesVolume l₁ + tradesVolume l₂ := by
  simp [tradesVolume]

theorem removeEntry_none_iff {l : List OrderBookEntry} {oid : String} :
    removeEntry l oid = none ↔ ∀ e ∈ l, e.order_id ≠ oid := by
  induction l with
  | nil => simp [removeEntry]
  | cons e rest ih =>
    by_cases he : e.order_id = oid
    · simp [removeEntry, he]
    · rw [removeEntry, if_neg he]
      constructor
      · intro h
        have : removeEntry rest oid = none := by
          cases hr : removeEntry rest oid with
          | none => rfl
          | some pr => rw [hr] at h; simp [Option.map] at h
        intro x hx
        rcases List.mem_cons.mp hx with hx | hx
        · exact hx ▸ he
        · exact (ih.mp this) x hx
      · intro h
        rw [ih.mpr (fun x hx => h x (List.mem_cons_of_mem _ hx))]
        rfl

theorem removeEntry_some_decomp {l l' : List OrderBookEntry} {oid : String} {e : OrderBookEntry}
    (h : removeEntry l oid = some (e, l')) :
    ∃ pre post, l = pre ++ e :: post ∧ l' = pre ++ post ∧ e.order_id = oid ∧
      ∀ x ∈ pre, x.order_id ≠ oid := by
  induction l generalizing l' with
  | nil => simp [removeEntry] at h
  | cons hd rest ih =>
    by_cases hh : hd.order_id = oid
    · rw [removeEntry, if_pos hh] at h
      injection h with h
      have he : hd = e := congrArg Prod.fst h
      have hr2 : rest = l' := congrArg Prod.snd h
      exact ⟨[], rest, by simp [he], by simp [← hr2], he ▸ hh, by simp⟩
    · rw [removeEntry, if_neg hh] at h
      cases hr : removeEntry rest oid with
      | none => rw [hr] at h; simp [Option.map] at h
      | some pr =>
        rw [hr] at h
        obtain ⟨e₀, l₀⟩ := pr
        simp only [Option.map] at h
        injection h with h
        have he : e₀ = e := congrArg Prod.fst h
        have hl : hd :: l₀ = l' := congrArg Prod.snd h
        subst he
        obtain ⟨pre, post, h1, h2, h3, h4⟩ := ih hr
        refine ⟨hd :: pre, post, by simp [h1], by simp [← hl, h2], h3, ?_⟩
        intro x hx
        rcases List.mem_cons.mp hx with hx | hx
        · exact hx ▸ hh
        · exact h4 x hx

theorem removeEntry_volume {l l' : List OrderBookEntry} {oid : String} {e : OrderBookEntry}
    (h : removeEntry l oid = some (e, l')) :
    entriesVolume l' = entriesVolume l - e.amount := by
  obtain ⟨pre, post, h1, h2, _, _⟩ := removeEntry_some_decomp h
  subst h1 h2
  rw [entriesVolume_append, entriesVolume_append, entriesVolume_cons]
  ring

theorem mem_of_mem_removeEntry {l l' : List OrderBookEntry} {oid : String} {e x : OrderBookEntry}
    (h : removeEntry l oid = some (e, l')) (hx : x ∈ l') : x ∈ l := by
  obtain ⟨pre, post, h1, h2, _, _⟩ := removeEntry_some_decomp h
  subst h1 h2
  rcases List.mem_append.mp hx with hx | hx
  · exact List.mem_append.mpr (Or.inl hx)
  · exact List.mem_append.mpr (Or.inr (List.mem_cons_of_mem _ hx))

theorem mem_eraseFirstPrice {l : List ℚ} {p q : ℚ} (h : q ∈ eraseFirstPrice l p) : q ∈ l := by
  induction l with
  | nil => simpa [eraseFirstPrice] using h
  | cons hd rest ih =>
    by_cases hh : hd = p
    · rw [eraseFirstPrice, if_pos hh] at h
      exact List.mem_cons_of_mem _ h
    · rw [eraseFirstPrice, if_neg hh] at h
      rcases List.mem_cons.mp h with h | h
      · exact h ▸ List.mem_cons_self _ _
      · exact List.mem_cons_of_mem _ (ih h)

theorem mem_eraseFirstPrice_of_ne {l : List ℚ} {p q : ℚ} (hq : q ∈ l) (hne : q ≠ p) :
    q ∈ eraseFirstPrice l p := by
  induction l with
  | nil => simpa using hq
  | cons hd rest ih =>
    by_cases hh : hd = p
    · rw [eraseFirstPrice, if_pos hh]
      rcases List.mem_cons.mp hq with h | h
      · exact absurd (h.trans hh) hne
      · exact h
    · rw [eraseFirstPrice, if_neg hh]
      rcases List.mem_cons.mp hq with h | h
      · exact h ▸ List.mem_cons_self _ _
      · exact List.mem_cons_of_mem _ (ih h)

theorem validateOrder_facts {o : RawOrder} (h : validateOrder o = true) :
    0 < o.amount ∧ 0 < o.limit_price ∧ (o.side = "BUY" ∨ o.side = "SELL") := by
  simp only [validateOrder, Bool.and_eq_true, Bool.or_eq_true, beq_iff_eq, bne_iff_ne,
    decide_eq_true_eq] at h
  exact ⟨h.1.1.2, h.1.2, h.1.1.1.2⟩

/-- The audited run projects onto the plain service run. -/
theorem runAudit_ok {c : ℕ → ℤ} {raws : List RawOrder} :
    ∀ {st : ServiceState} {acc : AuditAcc} {st' : ServiceState} {acc' : AuditAcc},
    runAudit c raws (st, acc) = .ok (st', acc') → processRawOrders c raws st = .ok st' := by
  induction raws with
  | nil =>
    intro st acc st' acc' h
    rw [runAudit] at h
    injection h with h
    rw [processRawOrders]
    exact congrArg Except.ok (congrArg Prod.fst h)
  | cons raw rest ih =>
    intro st acc st' acc' h
    rw [runAudit] at h
    rw [processRawOrders, processRawOrder]
    by_cases hv : validateOrder raw
    · rw [if_pos hv] at h ⊢
      exact ih h
    · rw [if_neg hv] at h
      exact absurd h (by simp)

/-! Lemmas about matching at one price level. -/

theorem mal_orders_volume (c : ℕ → ℤ) (pair takerId takerAcct : String) (price : ℚ)
    (l : List OrderBookEntry) : ∀ (amt vol : ℚ) (tid ci : ℕ),
    entriesVolume (matchAtPriceLevel c pair takerId takerAcct price amt vol tid ci l).orders =
      entriesVolume l -
        tradesVolume (matchAtPriceLevel c pair takerId takerAcct price amt vol tid ci l).trades := by
  induction l with
  | nil =>
    intro amt vol tid ci
    rw [matchAtPriceLevel]
    simp [entriesVolume, tradesVolume]
  | cons m rest ih =>
    intro amt vol tid ci
    rw [matchAtPriceLevel]
    by_cases h0 : 0 < amt
    · rw [if_pos h0]
      dsimp only
      by_cases hd : decSub m.amount (if amt < m.amount then amt else m.amount) ≤ 0
      · rw [if_pos hd]
        dsimp only
        have hfill : (if amt < m.amount then amt else m.amount) = m.amount := by
          by_cases hc : amt < m.amount
          · exfalso
            rw [if_pos hc, decSub_eq] at hd
            linarith
          · rw [if_neg hc]
        rw [hfill]
        rw [entriesVolume_cons, tradesVolume_cons, ih]
        ring
      · rw [if_neg hd]
        dsimp only
        rw [entriesVolume_cons, entriesVolume_cons, tradesVolume_cons, tradesVolume_nil, decSub_eq]
        dsimp only
        ring
    · rw [if_neg h0]
      dsimp only
      simp [tradesVolume]

theorem mal_orders_pos (c : ℕ → ℤ) (pair takerId takerAcct : String) (price : ℚ)
    (l : List OrderBookEntry) : ∀ (amt vol : ℚ) (tid ci : ℕ),
    (∀ e ∈ l, 0 < e.amount) →
    ∀ e ∈ (matchAtPriceLevel c pair takerId takerAcct price amt vol tid ci l).orders,
      0 < e.amount := by
  induction l with
  | nil =>
    intro amt vol tid ci _ e he
    rw [matchAtPriceLevel] at he
    simp at he
  | cons m rest ih =>
    intro amt vol tid ci hl e he
    rw [matchAtPriceLevel] at he
    by_cases h0 : 0 < amt
    · rw [if_pos h0] at he
      dsimp only at he
      by_cases hd : decSub m.amount (if amt < m.amount then amt else m.amount) ≤ 0
      · rw [if_pos hd] at he
        dsimp only at he
        exact ih _ _ _ _ (fun x hx => hl x (List.mem_cons_of_mem _ hx)) e he
      · rw [if_neg hd] at he
        dsimp only at he
        rcases List.mem_cons.mp he with he | he
        · subst he
          dsimp only
          push_neg at hd
          exact hd
        · exact hl e (List.mem_cons_of_mem _ he)
    · rw [if_neg h0] at he
      dsimp only at he
      exact hl e he

theorem mal_counters (c : ℕ → ℤ) (pair takerId takerAcct : String) (price : ℚ)
    (l : List OrderBookEntry) : ∀ (amt vol : ℚ) (tid ci : ℕ),
    (matchAtPriceLevel c pair takerId takerAcct price amt vol tid ci l).nextTid =
      tid + (matchAtPriceLevel c pair takerId takerAcct price amt vol tid ci l).trades.length ∧
    (matchAtPriceLevel c pair takerId takerAcct price amt vol tid ci l).clockIdx =
      ci + (matchAtPriceLevel c pair takerId takerAcct price amt vol tid ci l).trades.length := by
  induction l with
  | nil =>
    intro amt vol tid ci
    rw [matchAtPriceLevel]
    simp
  | cons m rest ih =>
    intro amt vol tid ci
    rw [matchAtPriceLevel]
    by_cases h0 : 0 < amt
    · rw [if_pos h0]
      dsimp only
      by_cases hd : decSub m.amount (if amt < m.amount then amt else m.amount) ≤ 0
      · rw [if_pos hd]
        dsimp only
        obtain ⟨h1, h2⟩ := ih (decSub amt (if amt < m.amount then amt else m.amount))
          (decSub vol (if amt < m.amount then amt else m.amount)) (tid + 1) (ci + 1)
        constructor
        · rw [List.length_cons, h1]
          omega
        · rw [List.length_cons, h2]
          omega
      · rw [if_neg hd]
        dsimp only
        simp
    · rw [if_neg h0]
      dsimp only
      simp

/-! Conditional equations for the price walk, one per control path. -/

theorem matchWalk_zero (c : ℕ → ℤ) (pair takerId takerAcct sideName : String) (limit : ℚ)
    {amt : ℚ} (tid ci : ℕ) (oppo : OrderBookSide) (p : ℚ) (rest : List ℚ)
    (h0 : ¬ 0 < amt) :
    matchWalk c pair takerId takerAcct sideName limit amt tid ci oppo (p :: rest) =
      ⟨[], amt, oppo, tid, ci⟩ := by
  rw [matchWalk, if_neg h0]

theorem matchWalk_incompat (c : ℕ → ℤ) (pair takerId takerAcct sideName : String) (limit : ℚ)
    {amt : ℚ} (tid ci : ℕ) (oppo : OrderBookSide) {p : ℚ} (rest : List ℚ)
    (h0 : 0 < amt)
    (hc : ¬ ((sideName = "BUY" ∧ p ≤ limit) ∨ (sideName = "SELL" ∧ limit ≤ p))) :
    matchWalk c pair takerId takerAcct sideName limit amt tid ci oppo (p :: rest) =
      ⟨[], amt, oppo, tid, ci⟩ := by
  rw [matchWalk, if_pos h0, if_neg hc]

theorem matchWalk_stale (c : ℕ → ℤ) (pair takerId takerAcct sideName : String) (limit : ℚ)
    {amt : ℚ} (tid ci : ℕ) {oppo : OrderBookSide} {p : ℚ} (rest : List ℚ)
    (h0 : 0 < amt)
    (hc : (sideName = "BUY" ∧ p ≤ limit) ∨ (sideName = "SELL" ∧ limit ≤ p))
    (hL : alLookup oppo.priceLevels p = none) :
    matchWalk c pair takerId takerAcct sideName limit amt tid ci oppo (p :: rest) =
      matchWalk c pair takerId takerAcct sideName limit amt tid ci oppo rest := by
  rw [matchWalk, if_pos h0, if_pos hc, hL]

theorem matchWalk_emptyLevel (c : ℕ → ℤ) (pair takerId takerAcct sideName : String) (limit : ℚ)
    {amt : ℚ} (tid ci : ℕ) {oppo : OrderBookSide} {p : ℚ} (rest : List ℚ) {L : PriceLevel}
    (h0 : 0 < amt)
    (hc : (sideName = "BUY" ∧ p ≤ limit) ∨ (sideName = "SELL" ∧ limit ≤ p))
    (hL : alLookup oppo.priceLevels p = some L) (hE : L.orders = []) :
    matchWalk c pair takerId takerAcct sideName limit amt tid ci oppo (p :: rest) =
      matchWalk c pair takerId takerAcct sideName limit amt tid ci oppo rest := by
  rw [matchWalk, if_pos h0, if_pos hc, hL]
  exact if_pos hE

theorem matchWalk_levelEmptied (c : ℕ → ℤ) (pair takerId takerAcct sideName : String)
    (limit : ℚ) {amt : ℚ} (tid ci : ℕ) {oppo : OrderBookSide} {p : ℚ} (rest : List ℚ)
    {L : PriceLevel}
    (h0 : 0 < amt)
    (hc : (sideName = "BUY" ∧ p ≤ limit) ∨ (sideName = "SELL" ∧ limit ≤ p))
    (hL : alLookup oppo.priceLevels p = some L) (hE : ¬ L.orders = [])
    (hOrd : (matchAtPriceLevel c pair takerId takerAcct L.price amt L.totalVolume tid ci
      L.orders).orders = []) :
    matchWalk c pair takerId takerAcct sideName limit amt tid ci oppo (p :: rest) =
      (let r := matchAtPriceLevel c pair takerId takerAcct L.price amt L.totalVolume tid ci
        L.orders
      let r2 := matchWalk c pair takerId takerAcct sideName limit r.remaining r.nextTid
        r.clockIdx ⟨alErase oppo.priceLevels p, oppo.prices⟩ rest
      ⟨r.trades ++ r2.trades, r2.remaining, r2.side, r2.nextTid, r2.clockIdx⟩) := by
  rw [matchWalk, if_pos h0, if_pos hc, hL]
  show (if L.orders = [] then _ else _) = _
  rw [if_neg hE]
  show (if _ = ([] : List OrderBookEntry) then _ else _) = _
  rw [if_pos hOrd]

theorem matchWalk_levelKept (c : ℕ → ℤ) (pair takerId takerAcct sideName : String)
    (limit : ℚ) {amt : ℚ} (tid ci : ℕ) {oppo : OrderBookSide} {p : ℚ} (rest : List ℚ)
    {L : PriceLevel}
    (h0 : 0 < amt)
    (hc : (sideName = "BUY" ∧ p ≤ limit) ∨ (sideName = "SELL" ∧ limit ≤ p))
    (hL : alLookup oppo.priceLevels p = some L) (hE : ¬ L.orders = [])
    (hOrd : ¬ (matchAtPriceLevel c pair takerId takerAcct L.price amt L.totalVolume tid ci
      L.orders).orders = []) :
    matchWalk c pair takerId takerAcct sideName limit amt tid ci oppo (p :: rest) =
      (let r := matchAtPriceLevel c pair takerId takerAcct L.price amt L.totalVolume tid ci
        L.orders
      ⟨r.trades, r.remaining, ⟨alSet oppo.priceLevels p ⟨L.price, r.orders, r.totalVolume⟩,
        oppo.prices⟩, r.nextTid, r.clockIdx⟩) := by
  rw [matchWalk, if_pos h0, if_pos hc, hL]
  show (if L.orders = [] then _ else _) = _
  rw [if_neg hE]
  show (if _ = ([] : List OrderBookEntry) then _ else _) = _
  rw [if_neg hOrd]

/-! Combined lemma about the price walk of matchOrder. -/

theorem sideVolume_eq_alSum (s : OrderBookSide) :
    sideVolume s = alSum s.priceLevels (fun L => entriesVolume L.orders) := rfl

theorem mw_main (c : ℕ → ℤ) (pair takerId takerAcct sideName : String) (limit : ℚ)
    (ps : List ℚ) : ∀ (amt : ℚ) (tid ci : ℕ) (oppo : OrderBookSide),
    (matchWalk c pair takerId takerAcct sideName limit amt tid ci oppo ps).side.prices =
      oppo.prices ∧
    sideVolume (matchWalk c pair takerId takerAcct sideName limit amt tid ci oppo ps).side =
      sideVolume oppo -
        tradesVolume (matchWalk c pair takerId takerAcct sideName limit amt tid ci oppo ps).trades ∧
    (SideWF oppo →
      SideWF (matchWalk c pair takerId takerAcct sideName limit amt tid ci oppo ps).side) ∧
    (matchWalk c pair takerId takerAcct sideName limit amt tid ci oppo ps).nextTid =
      tid + (matchWalk c pair takerId takerAcct sideName limit amt tid ci oppo ps).trades.length ∧
    (matchWalk c pair takerId takerAcct sideName limit amt tid ci oppo ps).clockIdx =
      ci + (matchWalk c pair takerId takerAcct sideName limit amt tid ci oppo ps).trades.length := by
  induction ps with
  | nil =>
    intro amt tid ci oppo
    rw [matchWalk]
    exact ⟨rfl, by simp [tradesVolume], fun h => h, by simp, by simp⟩
  | cons p rest ih =>
    intro amt tid ci oppo
    by_cases h0 : 0 < amt
    · by_cases hc : (sideName = "BUY" ∧ p ≤ limit) ∨ (sideName = "SELL" ∧ limit ≤ p)
      · cases hL : alLookup oppo.priceLevels p with
        | none =>
          rw [matchWalk_stale c pair takerId takerAcct sideName limit tid ci rest h0 hc hL]
          exact ih amt tid ci oppo
        | some L =>
          by_cases hE : L.orders = []
          · rw [matchWalk_emptyLevel c pair takerId takerAcct sideName limit tid ci rest h0 hc
              hL hE]
            exact ih amt tid ci oppo
          · by_cases hOrd :
                (matchAtPriceLevel c pair takerId takerAcct L.price amt L.totalVolume tid ci
                  L.orders).orders = []
            · rw [matchWalk_levelEmptied c pair takerId takerAcct sideName limit tid ci rest h0
                hc hL hE hOrd]
              dsimp only
              obtain ⟨ih1, ih2, ih3, ih4, ih5⟩ :=
                ih (matchAtPriceLevel c pair takerId takerAcct L.price amt L.totalVolume tid ci
                    L.orders).remaining
                  (matchAtPriceLevel c pair takerId takerAcct L.price amt L.totalVolume tid ci
                    L.orders).nextTid
                  (matchAtPriceLevel c pair takerId takerAcct L.price amt L.totalVolume tid ci
                    L.orders).clockIdx
                  ⟨alErase oppo.priceLevels p, oppo.prices⟩
              have hvolL : entriesVolume L.orders =
                  tradesVolume (matchAtPriceLevel c pair takerId takerAcct L.price amt
                    L.totalVolume tid ci L.orders).trades := by
                have := mal_orders_volume c pair takerId takerAcct L.price L.orders amt
                  L.totalVolume tid ci
                rw [hOrd, entriesVolume_nil] at this
                linarith
              refine ⟨ih1, ?_, ?_, ?_, ?_⟩
              · rw [ih2, tradesVolume_append]
                have herase : sideVolume (⟨alErase oppo.priceLevels p, oppo.prices⟩ :
                    OrderBookSide) = sideVolume oppo - entriesVolume L.orders := by
                  rw [sideVolume_eq_alSum, sideVolume_eq_alSum]
                  exact alSum_alErase_some hL _
                rw [herase, hvolL]
                ring
              · intro hwf
                apply ih3
                refine ⟨?_, ?_, ?_⟩
                · intro kv hkv
                  exact hwf.1 kv (mem_alErase hkv)
                · exact hwf.2.1.sublist (alErase_keys_sublist _ _)
                · intro kv hkv e he
                  exact hwf.2.2 kv (mem_alErase hkv) e he
              · rw [ih4, List.length_append,
                  (mal_counters c pair takerId takerAcct L.price L.orders amt L.totalVolume
                    tid ci).1]
                omega
              · rw [ih5, List.length_append,
                  (mal_counters c pair takerId takerAcct L.price L.orders amt L.totalVolume
                    tid ci).2]
                omega
            · rw [matchWalk_levelKept c pair takerId takerAcct sideName limit tid ci rest h0 hc
                hL hE hOrd]
              dsimp only
              have hvol := mal_orders_volume c pair takerId takerAcct L.price L.orders amt
                L.totalVolume tid ci
              refine ⟨rfl, ?_, ?_, ?_, ?_⟩
              · rw [sideVolume_eq_alSum, sideVolume_eq_alSum, alSum_alSet_some hL _ _]
                dsimp only
                rw [hvol]
                ring
              · intro hwf
                refine ⟨?_, ?_, ?_⟩
                · intro kv hkv
                  rcases mem_alSet hkv with h | h
                  · rw [h]
                    exact hwf.1 (p, L) (alLookup_some_mem hL)
                  · exact hwf.1 kv h
                · rw [alSet_keys_of_some hL]
                  exact hwf.2.1
                · intro kv hkv e he
                  rcases mem_alSet hkv with h | h
                  · subst h
                    dsimp only at he
                    exact mal_orders_pos c pair takerId takerAcct L.price L.orders amt
                      L.totalVolume tid ci
                      (fun x hx => hwf.2.2 (p, L) (alLookup_some_mem hL) x hx) e he
                  · exact hwf.2.2 kv h e he
              · exact (mal_counters c pair takerId takerAcct L.price L.orders amt
                  L.totalVolume tid ci).1
              · exact (mal_counters c pair takerId takerAcct L.price L.orders amt
                  L.totalVolume tid ci).2
      · rw [matchWalk_incompat c pair takerId takerAcct sideName limit tid ci oppo rest h0 hc]
        exact ⟨rfl, by simp [tradesVolume], fun h => h, by simp, by simp⟩
    · rw [matchWalk_zero c pair takerId takerAcct sideName limit tid ci oppo p rest h0]
      exact ⟨rfl, by simp [tradesVolume], fun h => h, by simp, by simp⟩

/-! matchOrder unfolding equations and combined lemma. -/

theorem matchOrder_buy (c : ℕ → ℤ) (order : Order) (book : OrderBook) (tid ci : ℕ)
    (hside : order.side = "BUY") :
    matchOrder c order book tid ci =
      (if book.asks.prices = [] then ⟨[], book, tid, ci⟩
      else
        let r := matchWalk c book.pair order.order_id order.account_id order.side
          order.limit_price order.amount tid ci book.asks book.asks.prices
        ⟨r.trades, { book with asks := r.side }, r.nextTid, r.clockIdx⟩) := by
  rw [matchOrder]
  simp only [hside]
  rfl

theorem matchOrder_notBuy (c : ℕ → ℤ) (order : Order) (book : OrderBook) (tid ci : ℕ)
    (hside : ¬ order.side = "BUY") :
    matchOrder c order book tid ci =
      (if book.bids.prices = [] then ⟨[], book, tid, ci⟩
      else
        let r := matchWalk c book.pair order.order_id order.account_id order.side
          order.limit_price order.amount tid ci book.bids book.bids.prices
        ⟨r.trades, { book with bids := r.side }, r.nextTid, r.clockIdx⟩) := by
  rw [matchOrder]
  simp only [if_neg hside]

theorem matchOrder_main (c : ℕ → ℤ) (order : Order) (book : OrderBook) (tid ci : ℕ) :
    (matchOrder c order book tid ci).book.pair = book.pair ∧
    (order.side = "BUY" → (matchOrder c order book tid ci).book.bids = book.bids) ∧
    (¬ order.side = "BUY" → (matchOrder c order book tid ci).book.asks = book.asks) ∧
    (matchOrder c order book tid ci).book.bids.prices = book.bids.prices ∧
    (matchOrder c order book tid ci).book.asks.prices = book.asks.prices ∧
    bookVolume (matchOrder c order book tid ci).book =
      bookVolume book - tradesVolume (matchOrder c order book tid ci).trades ∧
    (BookWF book → BookWF (matchOrder c order book tid ci).book) ∧
    (matchOrder c order book tid ci).nextTid =
      tid + (matchOrder c order book tid ci).trades.length ∧
    (matchOrder c order book tid ci).clockIdx =
      ci + (matchOrder c order book tid ci).trades.length := by
  by_cases hside : order.side = "BUY"
  · rw [matchOrder_buy c order book tid ci hside]
    by_cases hemp : book.asks.prices = []
    · rw [if_pos hemp]
      exact ⟨rfl, fun _ => rfl, fun _ => rfl, rfl, rfl, by simp [tradesVolume], fun h => h,
        by simp, by simp⟩
    · rw [if_neg hemp]
      dsimp only
      obtain ⟨m1, m2, m3, m4, m5⟩ := mw_main c book.pair order.order_id order.account_id
        order.side order.limit_price book.asks.prices order.amount tid ci book.asks
      refine ⟨rfl, fun _ => rfl, fun h => absurd hside h, rfl, m1, ?_, ?_, m4, m5⟩
      · simp only [bookVolume]
        rw [m2]
        ring
      · intro hwf
        exact ⟨hwf.1, m3 hwf.2⟩
  · rw [matchOrder_notBuy c order book tid ci hside]
    by_cases hemp : book.bids.prices = []
    · rw [if_pos hemp]
      exact ⟨rfl, fun _ => rfl, fun _ => rfl, rfl, rfl, by simp [tradesVolume], fun h => h,
        by simp, by simp⟩
    · rw [if_neg hemp]
      dsimp only
      obtain ⟨m1, m2, m3, m4, m5⟩ := mw_main c book.pair order.order_id order.account_id
        order.side order.limit_price book.bids.prices order.amount tid ci book.bids
      refine ⟨rfl, fun h => absurd h hside, fun _ => rfl, m1, rfl, ?_, ?_, m4, m5⟩
      · simp only [bookVolume]
        rw [m2]
        ring
      · intro hwf
        exact ⟨m3 hwf.1, hwf.2⟩

/-! Lemmas for resting an order. -/

theorem alLookup_isSome_of_mem_keys {κ α : Type} [DecidableEq κ] {m : List (κ × α)} {k : κ}
    (h : k ∈ m.map Prod.fst) : alLookup m k ≠ none := by
  intro hnone
  induction m with
  | nil => simp at h
  | cons kv rest ih =>
    rw [alLookup] at hnone
    by_cases hk : kv.1 = k
    · rw [if_pos hk] at hnone
      exact Option.noConfusion hnone
    · rw [if_neg hk] at hnone
      simp only [List.map_cons, List.mem_cons] at h
      rcases h with h | h
      · exact hk h.symm
      · exact ih h hnone

theorem addToSide_volume (order : Order) (s : OrderBookSide) :
    sideVolume (addToSide order s) = sideVolume s + order.amount := by
  rw [addToSide]
  cases hab : alLookup s.priceLevels order.limit_price with
  | none =>
    simp only [hab, Option.isNone_none, if_pos]
    rw [alLookup_alSet_self]
    simp only [Option.getD_some]
    rw [sideVolume_eq_alSum, sideVolume_eq_alSum,
      alSum_alSet_some (alLookup_alSet_self _ _ _) _ _,
      alSum_alSet_none hab _ _]
    simp [entriesVolume, decAdd_eq]
  | some L =>
    simp only [hab, Option.isNone_some, Bool.false_eq_true, if_false]
    simp only [Option.getD_some]
    rw [sideVolume_eq_alSum, sideVolume_eq_alSum, alSum_alSet_some hab _ _]
    simp only [entriesVolume_append]
    simp [entriesVolume, decAdd_eq]
    ring

theorem addToSide_wf (order : Order) (s : OrderBookSide) (hwf : SideWF s)
    (hpos : 0 < order.amount) : SideWF (addToSide order s) := by
  rw [addToSide]
  cases hab : alLookup s.priceLevels order.limit_price with
  | none =>
    simp only [hab, Option.isNone_none, if_pos]
    rw [alLookup_alSet_self]
    simp only [Option.getD_some]
    set ps := (if order.side = "BUY" then
        List.insertionSort (fun a b => b ≤ a) (s.prices ++ [order.limit_price])
      else
        List.insertionSort (fun a b => a ≤ b) (s.prices ++ [order.limit_price])) with hps
    have hmemps : ∀ q : ℚ, q ∈ s.prices ++ [order.limit_price] → q ∈ ps := by
      intro q hq
      rw [hps]
      by_cases hb : order.side = "BUY"
      · rw [if_pos hb]
        exact (List.perm_insertionSort _ _).mem_iff.mpr hq
      · rw [if_neg hb]
        exact (List.perm_insertionSort _ _).mem_iff.mpr hq
    refine ⟨?_, ?_, ?_⟩
    · intro kv hkv
      rcases mem_alSet hkv with h | h
      · rw [h]
        exact hmemps _ (List.mem_append.mpr (Or.inr (List.mem_singleton.mpr rfl)))
      · rcases mem_alSet h with h2 | h2
        · rw [h2]
          exact hmemps _ (List.mem_append.mpr (Or.inr (List.mem_singleton.mpr rfl)))
        · exact hmemps _ (List.mem_append.mpr (Or.inl (hwf.1 kv h2)))
    · rw [alSet_keys_of_some (alLookup_alSet_self _ _ _), alSet_keys_of_none hab]
      rw [List.nodup_append]
      refine ⟨hwf.2.1, List.nodup_singleton _, ?_⟩
      intro a ha hb
      rw [List.mem_singleton] at hb
      subst hb
      exact alLookup_isSome_of_mem_keys ha hab
    · intro kv hkv e he
      rcases mem_alSet hkv with h | h
      · rw [h] at he
        dsimp only at he
        rcases List.mem_append.mp he with he | he
        · simp at he
        · rw [List.mem_singleton] at he
          subst he
          exact hpos
      · rcases mem_alSet h with h2 | h2
        · rw [h2] at he
          simp at he
        · exact hwf.2.2 kv h2 e he
  | some L =>
    simp only [hab, Option.isNone_some, Bool.false_eq_true, if_false]
    simp only [Option.getD_some]
    refine ⟨?_, ?_, ?_⟩
    · intro kv hkv
      rcases mem_alSet hkv with h | h
      · rw [h]
        exact hwf.1 (order.limit_price, L) (alLookup_some_mem hab)
      · exact hwf.1 kv h
    · rw [alSet_keys_of_some hab]
      exact hwf.2.1
    · intro kv hkv e he
      rcases mem_alSet hkv with h | h
      · rw [h] at he
        dsimp only at he
        rcases List.mem_append.mp he with he | he
        · exact hwf.2.2 (order.limit_price, L) (alLookup_some_mem hab) e he
        · rw [List.mem_singleton] at he
          subst he
          exact hpos
      · exact hwf.2.2 kv h e he

/-! Lemmas for the cancel operation. -/

theorem mem_alErase_fst_ne {κ α : Type} [DecidableEq κ] {m : List (κ × α)} {k : κ}
    {p : κ × α} (hnd : (m.map Prod.fst).Nodup) (hp : p ∈ alErase m k) : p.1 ≠ k := by
  induction m with
  | nil => simp [alErase] at hp
  | cons kv rest ih =>
    simp only [List.map_cons, List.nodup_cons] at hnd
    by_cases hk : kv.1 = k
    · rw [alErase, if_pos hk] at hp
      intro hpk
      exact hnd.1 (hk ▸ hpk ▸ List.mem_map.mpr ⟨p, hp, rfl⟩)
    · rw [alErase, if_neg hk] at hp
      rcases List.mem_cons.mp hp with hp | hp
      · rw [hp]
        exact hk
      · exact ih hnd.2 hp

theorem removeFromSide_noLevel {order : Order} {side : OrderBookSide}
    (hL : alLookup side.priceLevels order.limit_price = none) :
    removeFromSide order side = none := by
  rw [removeFromSide, hL]

theorem removeFromSide_noEntry {order : Order} {side : OrderBookSide} {L : PriceLevel}
    (hL : alLookup side.priceLevels order.limit_price = some L)
    (hR : removeEntry L.orders order.order_id = none) :
    removeFromSide order side = none := by
  rw [removeFromSide, hL]
  have h2 : (match removeEntry L.orders order.order_id with
      | none => none
      | some (e, orders') =>
        some (if orders' = [] then
          (⟨alErase side.priceLevels order.limit_price,
            eraseFirstPrice side.prices order.limit_price⟩ : OrderBookSide)
        else
          ⟨alSet side.priceLevels order.limit_price
            ⟨L.price, orders', decSub L.totalVolume e.amount⟩, side.prices⟩)) =
      (none : Option OrderBookSide) := by
    rw [hR]
  exact h2

theorem removeFromSide_found {order : Order} {side : OrderBookSide} {L : PriceLevel}
    {e : OrderBookEntry} {orders' : List OrderBookEntry}
    (hL : alLookup side.priceLevels order.limit_price = some L)
    (hR : removeEntry L.orders order.order_id = some (e, orders')) :
    removeFromSide order side =
      some (if orders' = [] then
        (⟨alErase side.priceLevels order.limit_price,
          eraseFirstPrice side.prices order.limit_price⟩ : OrderBookSide)
      else
        ⟨alSet side.priceLevels order.limit_price
          ⟨L.price, orders', decSub L.totalVolume e.amount⟩, side.prices⟩) := by
  rw [removeFromSide, hL]
  have h2 : (match removeEntry L.orders order.order_id with
      | none => none
      | some (e, orders') =>
        some (if orders' = [] then
          (⟨alErase side.priceLevels order.limit_price,
            eraseFirstPrice side.prices order.limit_price⟩ : OrderBookSide)
        else
          ⟨alSet side.priceLevels order.limit_price
            ⟨L.price, orders', decSub L.totalVolume e.amount⟩, side.prices⟩)) =
      some (if orders' = [] then
        (⟨alErase side.priceLevels order.limit_price,
          eraseFirstPrice side.prices order.limit_price⟩ : OrderBookSide)
      else
        ⟨alSet side.priceLevels order.limit_price
          ⟨L.price, orders', decSub L.totalVolume e.amount⟩, side.prices⟩) := by
    rw [hR]
  exact h2

theorem removeFromSide_some_decomp {order : Order} {side side' : OrderBookSide}
    (h : removeFromSide order side = some side') :
    ∃ L e orders', alLookup side.priceLevels order.limit_price = some L ∧
      removeEntry L.orders order.order_id = some (e, orders') ∧
      side' = (if orders' = [] then
        (⟨alErase side.priceLevels order.limit_price,
          eraseFirstPrice side.prices order.limit_price⟩ : OrderBookSide)
      else
        ⟨alSet side.priceLevels order.limit_price
          ⟨L.price, orders', decSub L.totalVolume e.amount⟩, side.prices⟩) := by
  cases hL : alLookup side.priceLevels order.limit_price with
  | none =>
    rw [removeFromSide_noLevel hL] at h
    exact Option.noConfusion h
  | some L =>
    cases hR : removeEntry L.orders order.order_id with
    | none =>
      rw [removeFromSide_noEntry hL hR] at h
      exact Option.noConfusion h
    | some pr =>
      obtain ⟨e, orders'⟩ := pr
      rw [removeFromSide_found hL hR] at h
      injection h with h
      exact ⟨L, e, orders', rfl, hR, h.symm⟩

theorem removeFromSide_none_iff (order : Order) (side : OrderBookSide) :
    removeFromSide order side = none ↔
      (alLookup side.priceLevels order.limit_price = none ∨
        ∃ L, alLookup side.priceLevels order.limit_price = some L ∧
          ∀ x ∈ L.orders, x.order_id ≠ order.order_id) := by
  constructor
  · intro h
    cases hL : alLookup side.priceLevels order.limit_price with
    | none => exact Or.inl rfl
    | some L =>
      refine Or.inr ⟨L, rfl, ?_⟩
      cases hR : removeEntry L.orders order.order_id with
      | none => exact removeEntry_none_iff.mp hR
      | some pr =>
        obtain ⟨e, orders'⟩ := pr
        rw [removeFromSide_found hL hR] at h
        exact Option.noConfusion h
  · rintro (hL | ⟨L, hL, hall⟩)
    · exact removeFromSide_noLevel hL
    · exact removeFromSide_noEntry hL (removeEntry_none_iff.mpr hall)

theorem removeFromSide_some_volume {order : Order} {side side' : OrderBookSide}
    (h : removeFromSide order side = some side') :
    sideVolume side' = sideVolume side - removedAmountOfSide order side := by
  obtain ⟨L, e, orders', hL, hR, hside'⟩ := removeFromSide_some_decomp h
  have hram : removedAmountOfSide order side = e.amount := by
    rw [removedAmountOfSide, hL]
    have h2 : (match removeEntry L.orders order.order_id with
        | none => (0 : ℚ)
        | some pr => pr.1.amount) = (match some (e, orders') with
        | none => (0 : ℚ)
        | some pr => pr.1.amount) := by rw [hR]
    exact h2
  rw [hram]
  have hvol := removeEntry_volume hR
  subst hside'
  by_cases hemp : orders' = []
  · rw [if_pos hemp]
    rw [sideVolume_eq_alSum, sideVolume_eq_alSum]
    rw [alSum_alErase_some hL _]
    rw [hemp, entriesVolume_nil] at hvol
    have hLe : entriesVolume L.orders = e.amount := by linarith
    rw [hLe]
  · rw [if_neg hemp]
    rw [sideVolume_eq_alSum, sideVolume_eq_alSum]
    rw [alSum_alSet_some hL _ _]
    dsimp only
    rw [hvol]
    ring

theorem removeFromSide_some_wf {order : Order} {side side' : OrderBookSide}
    (hwf : SideWF side) (h : removeFromSide order side = some side') : SideWF side' := by
  obtain ⟨L, e, orders', hL, hR, hside'⟩ := removeFromSide_some_decomp h
  subst hside'
  by_cases hemp : orders' = []
  · rw [if_pos hemp]
    refine ⟨?_, ?_, ?_⟩
    · intro kv hkv
      dsimp only at hkv ⊢
      exact mem_eraseFirstPrice_of_ne (hwf.1 kv (mem_alErase hkv))
        (mem_alErase_fst_ne hwf.2.1 hkv)
    · exact hwf.2.1.sublist (alErase_keys_sublist _ _)
    · intro kv hkv x hx
      exact hwf.2.2 kv (mem_alErase hkv) x hx
  · rw [if_neg hemp]
    refine ⟨?_, ?_, ?_⟩
    · intro kv hkv
      dsimp only at hkv ⊢
      rcases mem_alSet hkv with hk | hk
      · rw [hk]
        exact hwf.1 (order.limit_price, L) (alLookup_some_mem hL)
      · exact hwf.1 kv hk
    · dsimp only
      rw [alSet_keys_of_some hL]
      exact hwf.2.1
    · intro kv hkv x hx
      rcases mem_alSet hkv with hk | hk
      · rw [hk] at hx
        dsimp only at hx
        exact hwf.2.2 (order.limit_price, L) (alLookup_some_mem hL) x
          (mem_of_mem_removeEntry hR hx)
      · exact hwf.2.2 kv hk x hx

/-! Wrapper-level lemmas: cancel on the book, rest on the book, lazy book
creation, and the service step. -/

theorem alLookup_append_of_none {κ α : Type} [DecidableEq κ] {m₁ : List (κ × α)} {k : κ}
    (h : alLookup m₁ k = none) (m₂ : List (κ × α)) :
    alLookup (m₁ ++ m₂) k = alLookup m₂ k := by
  induction m₁ with
  | nil => rfl
  | cons kv rest ih =>
    rw [alLookup] at h
    by_cases hk : kv.1 = k
    · rw [if_pos hk] at h
      exact Option.noConfusion h
    · rw [if_neg hk] at h
      rw [List.cons_append, alLookup, if_neg hk]
      exact ih h

theorem alLookup_append_of_some {κ α : Type} [DecidableEq κ] {m₁ : List (κ × α)} {k : κ}
    {v : α} (h : alLookup m₁ k = some v) (m₂ : List (κ × α)) :
    alLookup (m₁ ++ m₂) k = some v := by
  induction m₁ with
  | nil => simp [alLookup] at h
  | cons kv rest ih =>
    rw [alLookup] at h
    by_cases hk : kv.1 = k
    · rw [if_pos hk] at h
      rw [List.cons_append, alLookup, if_pos hk]
      exact h
    · rw [if_neg hk] at h
      rw [List.cons_append, alLookup, if_neg hk]
      exact ih h

theorem alSum_append {κ α : Type} (m₁ m₂ : List (κ × α)) (f : α → ℚ) :
    alSum (m₁ ++ m₂) f = alSum m₁ f + alSum m₂ f := by
  simp [alSum]

theorem restingVolume_eq_alSum (st : ServiceState) :
    restingVolume st = alSum st.orderBooks bookVolume := rfl

theorem bookVolume_empty (pair : String) : bookVolume (emptyBook pair) = 0 := by
  simp [bookVolume, sideVolume, emptyBook, alSum]

theorem bookWF_empty (pair : String) : BookWF (emptyBook pair) := by
  constructor <;> exact ⟨by simp [emptyBook], by simp [emptyBook], by simp [emptyBook]⟩

theorem ensureBook_lookup (st : ServiceState) (pair : String) :
    alLookup (ensureBook st pair) pair =
      some ((alLookup st.orderBooks pair).getD (emptyBook pair)) := by
  rw [ensureBook]
  cases h : alLookup st.orderBooks pair with
  | none =>
    rw [if_pos rfl, alLookup_append_of_none h]
    simp [alLookup]
  | some bk =>
    rw [if_neg (fun hc => Option.noConfusion hc), h]
    rfl

theorem ensureBook_volume (st : ServiceState) (pair : String) :
    alSum (ensureBook st pair) bookVolume = alSum st.orderBooks bookVolume := by
  rw [ensureBook]
  by_cases h : alLookup st.orderBooks pair = none
  · rw [if_pos h, alSum_append]
    simp [alSum, bookVolume_empty]
  · rw [if_neg h]

theorem ensureBook_wf {st : ServiceState} (hwf : StateWF st) (pair : String) :
    ∀ kv ∈ ensureBook st pair, BookWF kv.2 := by
  rw [ensureBook]
  by_cases h : alLookup st.orderBooks pair = none
  · rw [if_pos h]
    intro kv hkv
    rcases List.mem_append.mp hkv with hkv | hkv
    · exact hwf kv hkv
    · rw [List.mem_singleton] at hkv
      rw [hkv]
      exact bookWF_empty pair
  · rw [if_neg h]
    exact hwf

theorem addToOrderBook_volume (order : Order) (book : OrderBook) :
    bookVolume (addToOrderBook order book) = bookVolume book + order.amount := by
  rw [addToOrderBook]
  by_cases hside : order.side = "BUY"
  · rw [if_pos hside]
    simp only [bookVolume]
    rw [addToSide_volume]
    ring
  · rw [if_neg hside]
    simp only [bookVolume]
    rw [addToSide_volume]
    ring

theorem addToOrderBook_wf {order : Order} {book : OrderBook} (hwf : BookWF book)
    (hpos : 0 < order.amount) : BookWF (addToOrderBook order book) := by
  rw [addToOrderBook]
  by_cases hside : order.side = "BUY"
  · rw [if_pos hside]
    exact ⟨addToSide_wf order book.bids hwf.1 hpos, hwf.2⟩
  · rw [if_neg hside]
    exact ⟨hwf.1, addToSide_wf order book.asks hwf.2 hpos⟩

theorem addToOrderBook_pair (order : Order) (book : OrderBook) :
    (addToOrderBook order book).pair = book.pair := by
  rw [addToOrderBook]
  by_cases hside : order.side = "BUY"
  · rw [if_pos hside]
  · rw [if_neg hside]

theorem removeFromOrderBook_of_none {order : Order} {book : OrderBook}
    (h : removeFromSide order (if order.side = "BUY" then book.bids else book.asks) = none) :
    removeFromOrderBook order book = (false, book) := by
  rw [removeFromOrderBook]
  show (match removeFromSide order (if order.side = "BUY" then book.bids else book.asks) with
    | none => (false, book)
    | some side' => (true,
        if order.side = "BUY" then { book with bids := side' } else { book with asks := side' })) =
    (false, book)
  rw [h]

theorem removeFromOrderBook_of_some {order : Order} {book : OrderBook} {side' : OrderBookSide}
    (h : removeFromSide order (if order.side = "BUY" then book.bids else book.asks) =
      some side') :
    removeFromOrderBook order book = (true,
      if order.side = "BUY" then { book with bids := side' } else { book with asks := side' }) := by
  rw [removeFromOrderBook]
  show (match removeFromSide order (if order.side = "BUY" then book.bids else book.asks) with
    | none => (false, book)
    | some side' => (true,
        if order.side = "BUY" then { book with bids := side' } else { book with asks := side' })) = _
  rw [h]

theorem removeFromOrderBook_volume (order : Order) (book : OrderBook) :
    bookVolume (removeFromOrderBook order book).2 =
      bookVolume book -
        (if (removeFromOrderBook order book).1 = true then removedAmountOf order book else 0) := by
  cases h : removeFromSide order (if order.side = "BUY" then book.bids else book.asks) with
  | none =>
    rw [removeFromOrderBook_of_none h]
    simp
  | some side' =>
    rw [removeFromOrderBook_of_some h]
    dsimp only
    rw [if_pos rfl, removedAmountOf]
    have hv := removeFromSide_some_volume h
    by_cases hside : order.side = "BUY"
    · simp only [if_pos hside] at hv ⊢
      simp only [bookVolume]
      rw [hv]
      ring
    · simp only [if_neg hside] at hv ⊢
      simp only [bookVolume]
      rw [hv]
      ring

theorem removeFromOrderBook_wf {order : Order} {book : OrderBook} (hwf : BookWF book) :
    BookWF (removeFromOrderBook order book).2 := by
  cases h : removeFromSide order (if order.side = "BUY" then book.bids else book.asks) with
  | none =>
    rw [removeFromOrderBook_of_none h]
    exact hwf
  | some side' =>
    rw [removeFromOrderBook_of_some h]
    dsimp only
    by_cases hside : order.side = "BUY"
    · simp only [if_pos hside] at h ⊢
      exact ⟨removeFromSide_some_wf hwf.1 h, hwf.2⟩
    · simp only [if_neg hside] at h ⊢
      exact ⟨hwf.1, removeFromSide_some_wf hwf.2 h⟩

/-! Service-step lemmas. -/

theorem processOrder_create (c : ℕ → ℤ) (st : ServiceState) (order : Order)
    (hop : order.type_op = "CREATE") :
    processOrder c st order =
      (let books := ensureBook st order.pair
      let book := (alLookup books order.pair).getD (emptyBook order.pair)
      let r := matchOrder c order book st.nextTradeId st.clockIdx
      let book2 := if 0 < order.amount then addToOrderBook order r.book else r.book
      ⟨alSet books order.pair book2, st.trades ++ r.trades, r.nextTid, r.clockIdx⟩) := by
  rw [processOrder, if_pos hop]

theorem processOrder_delete (c : ℕ → ℤ) (st : ServiceState) (order : Order)
    (hop1 : ¬ order.type_op = "CREATE") (hop2 : order.type_op = "DELETE") :
    processOrder c st order =
      (let books := ensureBook st order.pair
      let book := (alLookup books order.pair).getD (emptyBook order.pair)
      let pr := removeFromOrderBook order book
      ⟨alSet books order.pair pr.2, st.trades, st.nextTradeId, st.clockIdx⟩) := by
  rw [processOrder, if_neg hop1, if_pos hop2]

theorem processOrder_other (c : ℕ → ℤ) (st : ServiceState) (order : Order)
    (hop1 : ¬ order.type_op = "CREATE") (hop2 : ¬ order.type_op = "DELETE") :
    processOrder c st order =
      ⟨ensureBook st order.pair, st.trades, st.nextTradeId, st.clockIdx⟩ := by
  rw [processOrder, if_neg hop1, if_neg hop2]

theorem mem_alSet_wf {books : List (String × OrderBook)} {pair : String} {bk : OrderBook}
    (hall : ∀ kv ∈ books, BookWF kv.2) (hbk : BookWF bk) :
    ∀ kv ∈ alSet books pair bk, BookWF kv.2 := by
  intro kv hkv
  rcases mem_alSet hkv with h | h
  · rw [h]
    exact hbk
  · exact hall kv h

theorem workingBook_wf {st : ServiceState} (hwf : StateWF st) (pair : String) :
    BookWF (workingBook st pair) := by
  rw [workingBook]
  have hl := ensureBook_lookup st pair
  have hmem := alLookup_some_mem hl
  have := ensureBook_wf hwf pair _ hmem
  rw [hl]
  exact this

/-- One full CREATE step: conservation of volume.  The caller-visible
order amount is the original, so validated CREATEs rest their full
original amount, and the trade volume moves out of the maker entries. -/
theorem processOrder_create_volume (c : ℕ → ℤ) (st : ServiceState) (order : Order)
    (hop : order.type_op = "CREATE") (hpos : 0 < order.amount) :
    tradesVolume (processOrder c st order).trades + restingVolume (processOrder c st order) =
      tradesVolume st.trades + restingVolume st + order.amount := by
  rw [processOrder_create c st order hop]
  dsimp only
  rw [tradesVolume_append]
  rw [restingVolume_eq_alSum, restingVolume_eq_alSum]
  dsimp only [ServiceState.orderBooks]
  rw [alSum_alSet_some (ensureBook_lookup st order.pair) _ _]
  rw [if_pos hpos]
  rw [addToOrderBook_volume]
  have hmv := (matchOrder_main c order (workingBook st order.pair) st.nextTradeId st.clockIdx).2.2.2.2.2.1
  rw [workingBook] at hmv
  rw [hmv, ensureBook_volume]
  have hwb : (alLookup (ensureBook st order.pair) order.pair).getD (emptyBook order.pair) =
      (alLookup st.orderBooks order.pair).getD (emptyBook order.pair) := by
    rw [ensureBook_lookup]
    rfl
  rw [hwb]
  ring

theorem processOrder_delete_volume (c : ℕ → ℤ) (st : ServiceState) (order : Order)
    (hop1 : ¬ order.type_op = "CREATE") (hop2 : order.type_op = "DELETE") :
    tradesVolume (processOrder c st order).trades + restingVolume (processOrder c st order) =
      tradesVolume st.trades + restingVolume st -
        (if (removeFromOrderBook order (workingBook st order.pair)).1 = true then
          removedAmountOf order (workingBook st order.pair) else 0) := by
  rw [processOrder_delete c st order hop1 hop2]
  dsimp only
  rw [restingVolume_eq_alSum, restingVolume_eq_alSum]
  dsimp only [ServiceState.orderBooks]
  rw [alSum_alSet_some (ensureBook_lookup st order.pair) _ _]
  have hrv := removeFromOrderBook_volume order (workingBook st order.pair)
  rw [workingBook] at hrv
  rw [hrv, ensureBook_volume, workingBook]
  have hwb : (alLookup (ensureBook st order.pair) order.pair).getD (emptyBook order.pair) =
      (alLookup st.orderBooks order.pair).getD (emptyBook order.pair) := by
    rw [ensureBook_lookup]
    rfl
  rw [hwb]
  ring

theorem processOrder_other_volume (c : ℕ → ℤ) (st : ServiceState) (order : Order)
    (hop1 : ¬ order.type_op = "CREATE") (hop2 : ¬ order.type_op = "DELETE") :
    tradesVolume (processOrder c st order).trades + restingVolume (processOrder c st order) =
      tradesVolume st.trades + restingVolume st := by
  rw [processOrder_other c st order hop1 hop2]
  dsimp only
  rw [restingVolume_eq_alSum, restingVolume_eq_alSum]
  dsimp only [ServiceState.orderBooks]
  rw [ensureBook_volume]

theorem processOrder_wf (c : ℕ → ℤ) (st : ServiceState) (order : Order)
    (hpos : order.type_op = "CREATE" → 0 < order.amount) (hwf : StateWF st) :
    StateWF (processOrder c st order) := by
  by_cases hop1 : order.type_op = "CREATE"
  · rw [processOrder_create c st order hop1]
    dsimp only
    intro kv hkv
    dsimp only [ServiceState.orderBooks] at hkv
    have hbwf := workingBook_wf hwf order.pair
    have hmwf := (matchOrder_main c order (workingBook st order.pair) st.nextTradeId
      st.clockIdx).2.2.2.2.2.2.1 hbwf
    have hbook2 : BookWF (if 0 < order.amount then
        addToOrderBook order (matchOrder c order (workingBook st order.pair) st.nextTradeId
          st.clockIdx).book
      else (matchOrder c order (workingBook st order.pair) st.nextTradeId st.clockIdx).book) := by
      by_cases hp : 0 < order.amount
      · rw [if_pos hp]
        exact addToOrderBook_wf hmwf hp
      · rw [if_neg hp]
        exact hmwf
    rw [workingBook] at hbook2
    exact mem_alSet_wf (ensureBook_wf hwf order.pair) hbook2 kv hkv
  · by_cases hop2 : order.type_op = "DELETE"
    · rw [processOrder_delete c st order hop1 hop2]
      dsimp only
      intro kv hkv
      dsimp only [ServiceState.orderBooks] at hkv
      have hbwf := workingBook_wf hwf order.pair
      have hrwf := @removeFromOrderBook_wf order (workingBook st order.pair) hbwf
      rw [workingBook] at hrwf
      exact mem_alSet_wf (ensureBook_wf hwf order.pair) hrwf kv hkv
    · rw [processOrder_other c st order hop1 hop2]
      intro kv hkv
      dsimp only [ServiceState.orderBooks] at hkv
      exact ensureBook_wf hwf order.pair kv hkv

theorem processOrder_clockIdx (c : ℕ → ℤ) (st : ServiceState) (order : Order) :
    st.clockIdx ≤ (processOrder c st order).clockIdx := by
  by_cases hop1 : order.type_op = "CREATE"
  · rw [processOrder_create c st order hop1]
    dsimp only
    have := (matchOrder_main c order (workingBook st order.pair) st.nextTradeId
      st.clockIdx).2.2.2.2.2.2.2.2
    rw [workingBook] at this
    omega
  · by_cases hop2 : order.type_op = "DELETE"
    · rw [processOrder_delete c st order hop1 hop2]
    · rw [processOrder_other c st order hop1 hop2]

/-! Run-level invariants. -/

theorem createOrder_amount (raw : RawOrder) (ts : ℤ) : (createOrder raw ts).amount = raw.amount :=
  rfl

theorem processRawOrders_wf {c : ℕ → ℤ} {raws : List RawOrder} :
    ∀ {st st' : ServiceState}, processRawOrders c raws st = .ok st' → StateWF st →
      StateWF st' := by
  induction raws with
  | nil =>
    intro st st' h hwf
    rw [processRawOrders] at h
    injection h with h
    rw [← h]
    exact hwf
  | cons raw rest ih =>
    intro st st' h hwf
    rw [processRawOrders, processRawOrder] at h
    by_cases hv : validateOrder raw
    · rw [if_pos hv] at h
      refine ih h ?_
      apply processOrder_wf
      · intro _
        rw [createOrder_amount]
        exact (validateOrder_facts hv).1
      · exact hwf
    · rw [if_neg hv] at h
      exact absurd h (by simp)

theorem runAudit_conservation {c : ℕ → ℤ} {raws : List RawOrder} :
    ∀ {st : ServiceState} {acc : AuditAcc} {st' : ServiceState} {acc' : AuditAcc},
    runAudit c raws (st, acc) = .ok (st', acc') →
    tradesVolume st'.trades + restingVolume st' - (acc'.created - acc'.deleted) =
      tradesVolume st.trades + restingVolume st - (acc.created - acc.deleted) := by
  induction raws with
  | nil =>
    intro st acc st' acc' h
    rw [runAudit] at h
    injection h with h
    injection h with h1 h2
    subst h1
    subst h2
    rfl
  | cons raw rest ih =>
    intro st acc st' acc' h
    rw [runAudit] at h
    by_cases hv : validateOrder raw
    · rw [if_pos hv] at h
      have hstep := ih h
      rw [hstep, auditStep]
      dsimp only
      simp only [decAdd_eq]
      by_cases hop1 : (createOrder raw (c st.clockIdx)).type_op = "CREATE"
      · have hvol := processOrder_create_volume c { st with clockIdx := st.clockIdx + 1 }
          (createOrder raw (c st.clockIdx)) hop1
          (by rw [createOrder_amount]; exact (validateOrder_facts hv).1)
        rw [hvol, if_pos hop1]
        rw [if_neg (fun hcon => by rw [hop1] at hcon; exact absurd hcon.1 (by decide))]
        dsimp only
        have hrest : restingVolume { st with clockIdx := st.clockIdx + 1 } =
            restingVolume st := rfl
        rw [hrest]
        ring
      · by_cases hop2 : (createOrder raw (c st.clockIdx)).type_op = "DELETE"
        · have hvol := processOrder_delete_volume c { st with clockIdx := st.clockIdx + 1 }
            (createOrder raw (c st.clockIdx)) hop1 hop2
          rw [hvol, if_neg hop1]
          by_cases hrem : (removeFromOrderBook (createOrder raw (c st.clockIdx))
              (workingBook { st with clockIdx := st.clockIdx + 1 }
                (createOrder raw (c st.clockIdx)).pair)).1 = true
          · rw [if_pos hrem, if_pos ⟨hop2, hrem⟩]
            dsimp only
            have hrest : restingVolume { st with clockIdx := st.clockIdx + 1 } =
                restingVolume st := rfl
            rw [hrest]
            ring
          · rw [if_neg hrem, if_neg (fun hcon => hrem hcon.2)]
            dsimp only
            have hrest : restingVolume { st with clockIdx := st.clockIdx + 1 } =
                restingVolume st := rfl
            rw [hrest]
            ring
        · have hvol := processOrder_other_volume c { st with clockIdx := st.clockIdx + 1 }
            (createOrder raw (c st.clockIdx)) hop1 hop2
          rw [hvol, if_neg hop1, if_neg (fun hcon => hop2 hcon.1)]
          dsimp only
          have hrest : restingVolume { st with clockIdx := st.clockIdx + 1 } =
              restingVolume st := rfl
          rw [hrest]
          ring
    · rw [if_neg hv] at h
      exact absurd h (by simp)

theorem runAudit_stamps {c : ℕ → ℤ} (hc : Monotone c) {raws : List RawOrder} :
    ∀ {st : ServiceState} {acc : AuditAcc} {st' : ServiceState} {acc' : AuditAcc},
    runAudit c raws (st, acc) = .ok (st', acc') →
    acc.stamps.Pairwise (· ≤ ·) → (∀ s ∈ acc.stamps, s ≤ c st.clockIdx) →
    acc'.stamps.Pairwise (· ≤ ·) ∧ (∀ s ∈ acc'.stamps, s ≤ c st'.clockIdx) := by
  induction raws with
  | nil =>
    intro st acc st' acc' h hp hb
    rw [runAudit] at h
    injection h with h
    injection h with h1 h2
    subst h1
    subst h2
    exact ⟨hp, hb⟩
  | cons raw rest ih =>
    intro st acc st' acc' h hp hb
    rw [runAudit] at h
    by_cases hv : validateOrder raw
    · rw [if_pos hv] at h
      have hclk : st.clockIdx ≤ (processOrder c { st with clockIdx := st.clockIdx + 1 }
          (createOrder raw (c st.clockIdx))).clockIdx := by
        have := processOrder_clockIdx c { st with clockIdx := st.clockIdx + 1 }
          (createOrder raw (c st.clockIdx))
        dsimp only at this
        omega
      refine ih h ?_ ?_
      · rw [auditStep]
        dsimp only
        rw [List.pairwise_append]
        refine ⟨hp, List.pairwise_singleton _ _, ?_⟩
        intro a ha b hbm
        rw [List.mem_singleton] at hbm
        subst hbm
        exact hb a ha
      · rw [auditStep]
        dsimp only
        intro s hs
        rcases List.mem_append.mp hs with hs | hs
        · exact le_trans (hb s hs) (hc hclk)
        · rw [List.mem_singleton] at hs
          subst hs
          exact hc hclk
    · rw [if_neg hv] at h
      exact absurd h (by simp)

/-! Two runs that differ only in the clock: the timestamp-stripped states
evolve identically.  Field extraction lemmas first. -/

theorem stripEntry_fields {e₁ e₂ : OrderBookEntry} (h : stripEntry e₁ = stripEntry e₂) :
    e₁.order_id = e₂.order_id ∧ e₁.account_id = e₂.account_id ∧ e₁.amount = e₂.amount ∧
      e₁.limit_price = e₂.limit_price := by
  refine ⟨?_, ?_, ?_, ?_⟩
  · have h2 := congrArg OrderBookEntry.order_id h
    exact h2
  · have h2 := congrArg OrderBookEntry.account_id h
    exact h2
  · have h2 := congrArg OrderBookEntry.amount h
    exact h2
  · have h2 := congrArg OrderBookEntry.limit_price h
    exact h2

theorem stripLevel_fields {L₁ L₂ : PriceLevel} (h : stripLevel L₁ = stripLevel L₂) :
    L₁.price = L₂.price ∧ L₁.totalVolume = L₂.totalVolume ∧
      L₁.orders.map stripEntry = L₂.orders.map stripEntry := by
  refine ⟨?_, ?_, ?_⟩
  · have h2 := congrArg PriceLevel.price h
    exact h2
  · have h2 := congrArg PriceLevel.totalVolume h
    exact h2
  · have h2 := congrArg PriceLevel.orders h
    exact h2

theorem stripOrder_fields {o₁ o₂ : Order} (h : stripOrder o₁ = stripOrder o₂) :
    o₁.type_op = o₂.type_op ∧ o₁.account_id = o₂.account_id ∧ o₁.amount = o₂.amount ∧
      o₁.order_id = o₂.order_id ∧ o₁.pair = o₂.pair ∧ o₁.limit_price = o₂.limit_price ∧
      o₁.side = o₂.side := by
  refine ⟨?_, ?_, ?_, ?_, ?_, ?_, ?_⟩
  · have h2 := congrArg Order.type_op h
    exact h2
  · have h2 := congrArg Order.account_id h
    exact h2
  · have h2 := congrArg Order.amount h
    exact h2
  · have h2 := congrArg Order.order_id h
    exact h2
  · have h2 := congrArg Order.pair h
    exact h2
  · have h2 := congrArg Order.limit_price h
    exact h2
  · have h2 := congrArg Order.side h
    exact h2

theorem stripSide_fields {s₁ s₂ : OrderBookSide} (h : stripSide s₁ = stripSide s₂) :
    s₁.priceLevels.map stripKV = s₂.priceLevels.map stripKV ∧ s₁.prices = s₂.prices := by
  refine ⟨?_, ?_⟩
  · have h2 := congrArg OrderBookSide.priceLevels h
    exact h2
  · have h2 := congrArg OrderBookSide.prices h
    exact h2

theorem stripSide_of (s₁ s₂ : OrderBookSide)
    (h1 : s₁.priceLevels.map stripKV = s₂.priceLevels.map stripKV)
    (h2 : s₁.prices = s₂.prices) : stripSide s₁ = stripSide s₂ := by
  show (⟨s₁.priceLevels.map stripKV, s₁.prices⟩ : OrderBookSide) = ⟨_, _⟩
  rw [h1, h2]

theorem stripBook_fields {b₁ b₂ : OrderBook} (h : stripBook b₁ = stripBook b₂) :
    b₁.pair = b₂.pair ∧ stripSide b₁.bids = stripSide b₂.bids ∧
      stripSide b₁.asks = stripSide b₂.asks := by
  refine ⟨?_, ?_, ?_⟩
  · have h2 := congrArg OrderBook.pair h
    exact h2
  · have h2 := congrArg OrderBook.bids h
    exact h2
  · have h2 := congrArg OrderBook.asks h
    exact h2

theorem stripBook_of (b₁ b₂ : OrderBook) (h0 : b₁.pair = b₂.pair)
    (h1 : stripSide b₁.bids = stripSide b₂.bids)
    (h2 : stripSide b₁.asks = stripSide b₂.asks) : stripBook b₁ = stripBook b₂ := by
  show (⟨b₁.pair, stripSide b₁.bids, stripSide b₁.asks⟩ : OrderBook) = ⟨_, _, _⟩
  rw [h0, h1, h2]

theorem stripState_fields {st₁ st₂ : ServiceState} (h : stripState st₁ = stripState st₂) :
    st₁.orderBooks.map stripBKV = st₂.orderBooks.map stripBKV ∧
      st₁.trades.map stripTrade = st₂.trades.map stripTrade ∧
      st₁.nextTradeId = st₂.nextTradeId ∧ st₁.clockIdx = st₂.clockIdx := by
  refine ⟨?_, ?_, ?_, ?_⟩
  · have h2 := congrArg ServiceState.orderBooks h
    exact h2
  · have h2 := congrArg ServiceState.trades h
    exact h2
  · have h2 := congrArg ServiceState.nextTradeId h
    exact h2
  · have h2 := congrArg ServiceState.clockIdx h
    exact h2

theorem stripState_of (st₁ st₂ : ServiceState)
    (h1 : st₁.orderBooks.map stripBKV = st₂.orderBooks.map stripBKV)
    (h2 : st₁.trades.map stripTrade = st₂.trades.map stripTrade)
    (h3 : st₁.nextTradeId = st₂.nextTradeId) (h4 : st₁.clockIdx = st₂.clockIdx) :
    stripState st₁ = stripState st₂ := by
  show (⟨st₁.orderBooks.map stripBKV, st₁.trades.map stripTrade, st₁.nextTradeId,
    st₁.clockIdx⟩ : ServiceState) = ⟨_, _, _, _⟩
  rw [h1, h2, h3, h4]

theorem strip_mal (c₁ c₂ : ℕ → ℤ) (pair takerId takerAcct : String) (price : ℚ) :
    ∀ (l₁ l₂ : List OrderBookEntry), l₁.map stripEntry = l₂.map stripEntry →
    ∀ (amt vol : ℚ) (tid ci : ℕ),
    (matchAtPriceLevel c₁ pair takerId takerAcct price amt vol tid ci l₁).trades.map
        stripTrade =
      (matchAtPriceLevel c₂ pair takerId takerAcct price amt vol tid ci l₂).trades.map
        stripTrade ∧
    (matchAtPriceLevel c₁ pair takerId takerAcct price amt vol tid ci l₁).remaining =
      (matchAtPriceLevel c₂ pair takerId takerAcct price amt vol tid ci l₂).remaining ∧
    (matchAtPriceLevel c₁ pair takerId takerAcct price amt vol tid ci l₁).orders.map
        stripEntry =
      (matchAtPriceLevel c₂ pair takerId takerAcct price amt vol tid ci l₂).orders.map
        stripEntry ∧
    (matchAtPriceLevel c₁ pair takerId takerAcct price amt vol tid ci l₁).totalVolume =
      (matchAtPriceLevel c₂ pair takerId takerAcct price amt vol tid ci l₂).totalVolume ∧
    (matchAtPriceLevel c₁ pair takerId takerAcct price amt vol tid ci l₁).nextTid =
      (matchAtPriceLevel c₂ pair takerId takerAcct price amt vol tid ci l₂).nextTid ∧
    (matchAtPriceLevel c₁ pair takerId takerAcct price amt vol tid ci l₁).clockIdx =
      (matchAtPriceLevel c₂ pair takerId takerAcct price amt vol tid ci l₂).clockIdx := by
  intro l₁
  induction l₁ with
  | nil =>
    intro l₂ h amt vol tid ci
    rw [List.map_nil] at h
    have h2 : l₂ = [] := List.map_eq_nil_iff.mp h.symm
    subst h2
    exact ⟨rfl, rfl, rfl, rfl, rfl, rfl⟩
  | cons m₁ rest₁ ih =>
    intro l₂ h amt vol tid ci
    cases l₂ with
    | nil => rw [List.map_cons, List.map_nil] at h; exact absurd h (by simp)
    | cons m₂ rest₂ =>
      rw [List.map_cons, List.map_cons] at h
      injection h with hm ht
      obtain ⟨hid, hacct, hamt, _⟩ := stripEntry_fields hm
      rw [matchAtPriceLevel, matchAtPriceLevel]
      by_cases h0 : 0 < amt
      · rw [if_pos h0, if_pos h0]
        dsimp only
        rw [← hamt]
        by_cases hd : decSub m₁.amount (if amt < m₁.amount then amt else m₁.amount) ≤ 0
        · rw [if_pos hd, if_pos hd]
          dsimp only
          obtain ⟨i1, i2, i3, i4, i5, i6⟩ := ih rest₂ ht
            (decSub amt (if amt < m₁.amount then amt else m₁.amount))
            (decSub vol (if amt < m₁.amount then amt else m₁.amount)) (tid + 1) (ci + 1)
          refine ⟨?_, i2, i3, i4, i5, i6⟩
          rw [List.map_cons, List.map_cons, i1]
          simp only [stripTrade, hid, hacct]
        · rw [if_neg hd, if_neg hd]
          dsimp only
          refine ⟨?_, rfl, ?_, rfl, rfl, rfl⟩
          · rw [List.map_cons, List.map_cons, List.map_nil]
            simp only [stripTrade, hid, hacct]
          · rw [List.map_cons, List.map_cons, ht]
            simp only [stripEntry]
            rw [show m₁.order_id = m₂.order_id from hid,
              show m₁.account_id = m₂.account_id from hacct,
              show m₁.limit_price = m₂.limit_price from (stripEntry_fields hm).2.2.2]
      · rw [if_neg h0, if_neg h0]
        exact ⟨rfl, rfl, by rw [List.map_cons, List.map_cons, ht, hm], rfl, rfl, rfl⟩

theorem strip_alLookup : ∀ {m₁ m₂ : List (ℚ × PriceLevel)},
    m₁.map stripKV = m₂.map stripKV → ∀ p,
    (alLookup m₁ p).map stripLevel = (alLookup m₂ p).map stripLevel := by
  intro m₁
  induction m₁ with
  | nil =>
    intro m₂ h p
    rw [List.map_nil] at h
    have h2 : m₂ = [] := List.map_eq_nil_iff.mp h.symm
    subst h2
    rfl
  | cons kv₁ rest₁ ih =>
    intro m₂ h p
    cases m₂ with
    | nil => rw [List.map_cons, List.map_nil] at h; exact absurd h (by simp)
    | cons kv₂ rest₂ =>
      rw [List.map_cons, List.map_cons] at h
      injection h with hkv ht
      have hfst0 := congrArg Prod.fst hkv
      have hfst : kv₁.1 = kv₂.1 := hfst0
      have hsnd0 := congrArg Prod.snd hkv
      have hsnd : stripLevel kv₁.2 = stripLevel kv₂.2 := hsnd0
      rw [alLookup, alLookup]
      by_cases hk : kv₁.1 = p
      · rw [if_pos hk, if_pos (hfst ▸ hk)]
        show some (stripLevel kv₁.2) = some (stripLevel kv₂.2)
        rw [hsnd]
      · rw [if_neg hk, if_neg (hfst ▸ hk)]
        exact ih ht p

theorem strip_alSet : ∀ {m₁ m₂ : List (ℚ × PriceLevel)},
    m₁.map stripKV = m₂.map stripKV → ∀ {v₁ v₂ : PriceLevel},
    stripLevel v₁ = stripLevel v₂ → ∀ p,
    (alSet m₁ p v₁).map stripKV = (alSet m₂ p v₂).map stripKV := by
  intro m₁
  induction m₁ with
  | nil =>
    intro m₂ h v₁ v₂ hv p
    rw [List.map_nil] at h
    have h2 : m₂ = [] := List.map_eq_nil_iff.mp h.symm
    subst h2
    rw [alSet, alSet, List.map_singleton, List.map_singleton]
    simp only [stripKV]
    rw [hv]
  | cons kv₁ rest₁ ih =>
    intro m₂ h v₁ v₂ hv p
    cases m₂ with
    | nil => rw [List.map_cons, List.map_nil] at h; exact absurd h (by simp)
    | cons kv₂ rest₂ =>
      rw [List.map_cons, List.map_cons] at h
      injection h with hkv ht
      have hfst0 := congrArg Prod.fst hkv
      have hfst : kv₁.1 = kv₂.1 := hfst0
      rw [alSet, alSet]
      by_cases hk : kv₁.1 = p
      · rw [if_pos hk, if_pos (hfst ▸ hk)]
        rw [List.map_cons, List.map_cons, ht]
        simp only [stripKV]
        rw [hv]
      · rw [if_neg hk, if_neg (hfst ▸ hk)]
        rw [List.map_cons, List.map_cons, hkv, ih ht hv p]

theorem strip_alErase : ∀ {m₁ m₂ : List (ℚ × PriceLevel)},
    m₁.map stripKV = m₂.map stripKV → ∀ p,
    (alErase m₁ p).map stripKV = (alErase m₂ p).map stripKV := by
  intro m₁
  induction m₁ with
  | nil =>
    intro m₂ h p
    rw [List.map_nil] at h
    have h2 : m₂ = [] := List.map_eq_nil_iff.mp h.symm
    subst h2
    rfl
  | cons kv₁ rest₁ ih =>
    intro m₂ h p
    cases m₂ with
    | nil => rw [List.map_cons, List.map_nil] at h; exact absurd h (by simp)
    | cons kv₂ rest₂ =>
      rw [List.map_cons, List.map_cons] at h
      injection h with hkv ht
      have hfst0 := congrArg Prod.fst hkv
      have hfst : kv₁.1 = kv₂.1 := hfst0
      rw [alErase, alErase]
      by_cases hk : kv₁.1 = p
      · rw [if_pos hk, if_pos (hfst ▸ hk)]
        exact ht
      · rw [if_neg hk, if_neg (hfst ▸ hk)]
        rw [List.map_cons, List.map_cons, hkv, ih ht p]

theorem strip_mal2 (c₁ c₂ : ℕ → ℤ) (pair takerId takerAcct : String) {p₁ p₂ : ℚ}
    (hp : p₁ = p₂) {l₁ l₂ : List OrderBookEntry} (h : l₁.map stripEntry = l₂.map stripEntry)
    (amt : ℚ) {v₁ v₂ : ℚ} (hv : v₁ = v₂) (tid ci : ℕ) :
    (matchAtPriceLevel c₁ pair takerId takerAcct p₁ amt v₁ tid ci l₁).trades.map stripTrade =
      (matchAtPriceLevel c₂ pair takerId takerAcct p₂ amt v₂ tid ci l₂).trades.map
        stripTrade ∧
    (matchAtPriceLevel c₁ pair takerId takerAcct p₁ amt v₁ tid ci l₁).remaining =
      (matchAtPriceLevel c₂ pair takerId takerAcct p₂ amt v₂ tid ci l₂).remaining ∧
    (matchAtPriceLevel c₁ pair takerId takerAcct p₁ amt v₁ tid ci l₁).orders.map stripEntry =
      (matchAtPriceLevel c₂ pair takerId takerAcct p₂ amt v₂ tid ci l₂).orders.map
        stripEntry ∧
    (matchAtPriceLevel c₁ pair takerId takerAcct p₁ amt v₁ tid ci l₁).totalVolume =
      (matchAtPriceLevel c₂ pair takerId takerAcct p₂ amt v₂ tid ci l₂).totalVolume ∧
    (matchAtPriceLevel c₁ pair takerId takerAcct p₁ amt v₁ tid ci l₁).nextTid =
      (matchAtPriceLevel c₂ pair takerId takerAcct p₂ amt v₂ tid ci l₂).nextTid ∧
    (matchAtPriceLevel c₁ pair takerId takerAcct p₁ amt v₁ tid ci l₁).clockIdx =
      (matchAtPriceLevel c₂ pair takerId takerAcct p₂ amt v₂ tid ci l₂).clockIdx := by
  subst hp
  subst hv
  exact strip_mal c₁ c₂ pair takerId takerAcct p₁ l₁ l₂ h amt v₁ tid ci

theorem strip_mw (c₁ c₂ : ℕ → ℤ) (pair takerId takerAcct sideName : String) (limit : ℚ) :
    ∀ (ps : List ℚ) (amt : ℚ) (tid ci : ℕ) (s₁ s₂ : OrderBookSide),
    stripSide s₁ = stripSide s₂ →
    (matchWalk c₁ pair takerId takerAcct sideName limit amt tid ci s₁ ps).trades.map
        stripTrade =
      (matchWalk c₂ pair takerId takerAcct sideName limit amt tid ci s₂ ps).trades.map
        stripTrade ∧
    (matchWalk c₁ pair takerId takerAcct sideName limit amt tid ci s₁ ps).remaining =
      (matchWalk c₂ pair takerId takerAcct sideName limit amt tid ci s₂ ps).remaining ∧
    stripSide (matchWalk c₁ pair takerId takerAcct sideName limit amt tid ci s₁ ps).side =
      stripSide (matchWalk c₂ pair takerId takerAcct sideName limit amt tid ci s₂ ps).side ∧
    (matchWalk c₁ pair takerId takerAcct sideName limit amt tid ci s₁ ps).nextTid =
      (matchWalk c₂ pair takerId takerAcct sideName limit amt tid ci s₂ ps).nextTid ∧
    (matchWalk c₁ pair takerId takerAcct sideName limit amt tid ci s₁ ps).clockIdx =
      (matchWalk c₂ pair takerId takerAcct sideName limit amt tid ci s₂ ps).clockIdx := by
  intro ps
  induction ps with
  | nil =>
    intro amt tid ci s₁ s₂ hss
    rw [matchWalk, matchWalk]
    exact ⟨rfl, rfl, hss, rfl, rfl⟩
  | cons p rest ih =>
    intro amt tid ci s₁ s₂ hss
    by_cases h0 : 0 < amt
    · by_cases hcp : (sideName = "BUY" ∧ p ≤ limit) ∨ (sideName = "SELL" ∧ limit ≤ p)
      · have hmap := (stripSide_fields hss).1
        have hlk := strip_alLookup hmap p
        cases hL₁ : alLookup s₁.priceLevels p with
        | none =>
          cases hL₂ : alLookup s₂.priceLevels p with
          | some L₂ =>
            rw [hL₁, hL₂] at hlk
            exact absurd hlk (by simp)
          | none =>
            rw [matchWalk_stale c₁ pair takerId takerAcct sideName limit tid ci rest h0 hcp hL₁,
              matchWalk_stale c₂ pair takerId takerAcct sideName limit tid ci rest h0 hcp hL₂]
            exact ih amt tid ci s₁ s₂ hss
        | some L₁ =>
          cases hL₂ : alLookup s₂.priceLevels p with
          | none =>
            rw [hL₁, hL₂] at hlk
            exact absurd hlk (by simp)
          | some L₂ =>
            rw [hL₁, hL₂] at hlk
            have hLs : stripLevel L₁ = stripLevel L₂ := by
              injection hlk
            obtain ⟨hprice, hvol, hords⟩ := stripLevel_fields hLs
            by_cases hE₁ : L₁.orders = []
            · have hE₂ : L₂.orders = [] := by
                rw [hE₁, List.map_nil] at hords
                exact List.map_eq_nil_iff.mp hords.symm
              rw [matchWalk_emptyLevel c₁ pair takerId takerAcct sideName limit tid ci rest h0
                  hcp hL₁ hE₁,
                matchWalk_emptyLevel c₂ pair takerId takerAcct sideName limit tid ci rest h0
                  hcp hL₂ hE₂]
              exact ih amt tid ci s₁ s₂ hss
            · have hE₂ : ¬ L₂.orders = [] := by
                intro hc
                rw [hc, List.map_nil] at hords
                exact hE₁ (List.map_eq_nil_iff.mp hords)
              obtain ⟨m1, m2, m3, m4, m5, m6⟩ := strip_mal2 c₁ c₂ pair takerId takerAcct
                hprice hords amt hvol tid ci
              by_cases hOrd₁ : (matchAtPriceLevel c₁ pair takerId takerAcct L₁.price amt
                  L₁.totalVolume tid ci L₁.orders).orders = []
              · have hOrd₂ : (matchAtPriceLevel c₂ pair takerId takerAcct L₂.price amt
                    L₂.totalVolume tid ci L₂.orders).orders = [] := by
                  rw [hOrd₁, List.map_nil] at m3
                  exact List.map_eq_nil_iff.mp m3.symm
                rw [matchWalk_levelEmptied c₁ pair takerId takerAcct sideName limit tid ci rest
                    h0 hcp hL₁ hE₁ hOrd₁,
                  matchWalk_levelEmptied c₂ pair takerId takerAcct sideName limit tid ci rest
                    h0 hcp hL₂ hE₂ hOrd₂]
                dsimp only
                rw [← m2, ← m5, ← m6]
                obtain ⟨i1, i2, i3, i4, i5⟩ := ih
                  (matchAtPriceLevel c₁ pair takerId takerAcct L₁.price amt L₁.totalVolume tid
                    ci L₁.orders).remaining
                  (matchAtPriceLevel c₁ pair takerId takerAcct L₁.price amt L₁.totalVolume tid
                    ci L₁.orders).nextTid
                  (matchAtPriceLevel c₁ pair takerId takerAcct L₁.price amt L₁.totalVolume tid
                    ci L₁.orders).clockIdx
                  ⟨alErase s₁.priceLevels p, s₁.prices⟩ ⟨alErase s₂.priceLevels p, s₂.prices⟩
                  (stripSide_of _ _ (strip_alErase hmap p) (stripSide_fields hss).2)
                refine ⟨?_, i2, i3, i4, i5⟩
                rw [List.map_append, List.map_append, m1, i1]
              · have hOrd₂ : ¬ (matchAtPriceLevel c₂ pair takerId takerAcct L₂.price amt
                    L₂.totalVolume tid ci L₂.orders).orders = [] := by
                  intro hc
                  rw [hc, List.map_nil] at m3
                  exact hOrd₁ (List.map_eq_nil_iff.mp m3)
                rw [matchWalk_levelKept c₁ pair takerId takerAcct sideName limit tid ci rest
                    h0 hcp hL₁ hE₁ hOrd₁,
                  matchWalk_levelKept c₂ pair takerId takerAcct sideName limit tid ci rest
                    h0 hcp hL₂ hE₂ hOrd₂]
                dsimp only
                refine ⟨m1, m2, ?_, m5, m6⟩
                refine stripSide_of _ _ ?_ (stripSide_fields hss).2
                refine strip_alSet hmap ?_ p
                show (⟨L₁.price, (matchAtPriceLevel c₁ pair takerId takerAcct L₁.price amt
                    L₁.totalVolume tid ci L₁.orders).orders.map stripEntry,
                  (matchAtPriceLevel c₁ pair takerId takerAcct L₁.price amt L₁.totalVolume tid
                    ci L₁.orders).totalVolume⟩ : PriceLevel) = _
                rw [m3, m4, hprice]
                rfl
      · rw [matchWalk_incompat c₁ pair takerId takerAcct sideName limit tid ci s₁ rest h0 hcp,
          matchWalk_incompat c₂ pair takerId takerAcct sideName limit tid ci s₂ rest h0 hcp]
        exact ⟨rfl, rfl, hss, rfl, rfl⟩
    · rw [matchWalk_zero c₁ pair takerId takerAcct sideName limit tid ci s₁ p rest h0,
        matchWalk_zero c₂ pair takerId takerAcct sideName limit tid ci s₂ p rest h0]
      exact ⟨rfl, rfl, hss, rfl, rfl⟩

theorem strip_matchOrder (c₁ c₂ : ℕ → ℤ) {o₁ o₂ : Order} {b₁ b₂ : OrderBook}
    (hso : stripOrder o₁ = stripOrder o₂) (hsb : stripBook b₁ = stripBook b₂) (tid ci : ℕ) :
    (matchOrder c₁ o₁ b₁ tid ci).trades.map stripTrade =
      (matchOrder c₂ o₂ b₂ tid ci).trades.map stripTrade ∧
    stripBook (matchOrder c₁ o₁ b₁ tid ci).book = stripBook (matchOrder c₂ o₂ b₂ tid ci).book ∧
    (matchOrder c₁ o₁ b₁ tid ci).nextTid = (matchOrder c₂ o₂ b₂ tid ci).nextTid ∧
    (matchOrder c₁ o₁ b₁ tid ci).clockIdx = (matchOrder c₂ o₂ b₂ tid ci).clockIdx := by
  obtain ⟨_, _, hamt, hoid, hpair, hlim, hsid⟩ := stripOrder_fields hso
  obtain ⟨hbpair, hbids, hasks⟩ := stripBook_fields hsb
  have hacct : o₁.account_id = o₂.account_id := (stripOrder_fields hso).2.1
  by_cases hside : o₁.side = "BUY"
  · have hside₂ : o₂.side = "BUY" := hsid ▸ hside
    rw [matchOrder_buy c₁ o₁ b₁ tid ci hside, matchOrder_buy c₂ o₂ b₂ tid ci hside₂]
    have hprices : b₁.asks.prices = b₂.asks.prices := (stripSide_fields hasks).2
    rw [← hprices, ← hbpair, ← hoid, ← hacct, ← hsid, ← hlim, ← hamt]
    by_cases hemp : b₁.asks.prices = []
    · rw [if_pos hemp, if_pos hemp]
      exact ⟨rfl, hsb, rfl, rfl⟩
    · rw [if_neg hemp, if_neg hemp]
      dsimp only
      obtain ⟨w1, w2, w3, w4, w5⟩ := strip_mw c₁ c₂ b₁.pair o₁.order_id o₁.account_id o₁.side
        o₁.limit_price b₁.asks.prices o₁.amount tid ci b₁.asks b₂.asks hasks
      exact ⟨w1, stripBook_of _ _ rfl hbids w3, w4, w5⟩
  · have hside₂ : ¬ o₂.side = "BUY" := fun h => hside (hsid ▸ h)
    rw [matchOrder_notBuy c₁ o₁ b₁ tid ci hside, matchOrder_notBuy c₂ o₂ b₂ tid ci hside₂]
    have hprices : b₁.bids.prices = b₂.bids.prices := (stripSide_fields hbids).2
    rw [← hprices, ← hbpair, ← hoid, ← hacct, ← hsid, ← hlim, ← hamt]
    by_cases hemp : b₁.bids.prices = []
    · rw [if_pos hemp, if_pos hemp]
      exact ⟨rfl, hsb, rfl, rfl⟩
    · rw [if_neg hemp, if_neg hemp]
      dsimp only
      obtain ⟨w1, w2, w3, w4, w5⟩ := strip_mw c₁ c₂ b₁.pair o₁.order_id o₁.account_id o₁.side
        o₁.limit_price b₁.bids.prices o₁.amount tid ci b₁.bids b₂.bids hbids
      exact ⟨w1, stripBook_of _ _ rfl w3 hasks, w4, w5⟩

theorem strip_addToSide {o₁ o₂ : Order} {s₁ s₂ : OrderBookSide}
    (hso : stripOrder o₁ = stripOrder o₂) (hss : stripSide s₁ = stripSide s₂) :
    stripSide (addToSide o₁ s₁) = stripSide (addToSide o₂ s₂) := by
  obtain ⟨_, hacct, hamt, hoid, _, hlim, hsid⟩ := stripOrder_fields hso
  have hmap := (stripSide_fields hss).1
  have hprices := (stripSide_fields hss).2
  rw [addToSide, addToSide, ← hlim, ← hsid]
  have hlk := strip_alLookup hmap o₁.limit_price
  have hentry : stripEntry ⟨o₁.order_id, o₁.account_id, o₁.amount, o₁.limit_price,
      o₁.timestamp⟩ = stripEntry ⟨o₂.order_id, o₂.account_id, o₂.amount, o₁.limit_price,
      o₂.timestamp⟩ := by
    simp only [stripEntry]
    rw [hoid, hacct, hamt]
  cases hL₁ : alLookup s₁.priceLevels o₁.limit_price with
  | none =>
    cases hL₂ : alLookup s₂.priceLevels o₁.limit_price with
    | some L₂ =>
      rw [hL₁, hL₂] at hlk
      exact absurd hlk (by simp)
    | none =>
      simp only [hL₁, hL₂, Option.isNone_none, if_pos]
      rw [alLookup_alSet_self, alLookup_alSet_self]
      simp only [Option.getD_some]
      apply stripSide_of
      · dsimp only
        refine strip_alSet (strip_alSet hmap rfl o₁.limit_price) ?_ o₁.limit_price
        show (⟨o₁.limit_price, [stripEntry ⟨o₁.order_id, o₁.account_id, o₁.amount,
          o₁.limit_price, o₁.timestamp⟩], decAdd 0 o₁.amount⟩ : PriceLevel) = _
        rw [hentry, hamt]
        rfl
      · dsimp only
        rw [hprices]
  | some L₁ =>
    cases hL₂ : alLookup s₂.priceLevels o₁.limit_price with
    | none =>
      rw [hL₁, hL₂] at hlk
      exact absurd hlk (by simp)
    | some L₂ =>
      rw [hL₁, hL₂] at hlk
      have hLs : stripLevel L₁ = stripLevel L₂ := by injection hlk
      obtain ⟨hLp, hLv, hLo⟩ := stripLevel_fields hLs
      simp only [hL₁, hL₂, Option.isNone_some, Bool.false_eq_true, if_false]
      simp only [Option.getD_some]
      apply stripSide_of
      · dsimp only
        refine strip_alSet hmap ?_ o₁.limit_price
        show (⟨L₁.price, (L₁.orders ++ [(⟨o₁.order_id, o₁.account_id,
          o₁.amount, o₁.limit_price, o₁.timestamp⟩ : OrderBookEntry)]).map stripEntry,
          decAdd L₁.totalVolume o₁.amount⟩ : PriceLevel) = _
        show _ = (⟨L₂.price, (L₂.orders ++ [(⟨o₂.order_id, o₂.account_id,
          o₂.amount, o₁.limit_price, o₂.timestamp⟩ : OrderBookEntry)]).map stripEntry,
          decAdd L₂.totalVolume o₂.amount⟩ : PriceLevel)
        rw [List.map_append, List.map_append, List.map_singleton, List.map_singleton,
          hentry, hamt, hLp, hLv, hLo]
      · dsimp only
        exact hprices

theorem strip_addToOrderBook {o₁ o₂ : Order} {b₁ b₂ : OrderBook}
    (hso : stripOrder o₁ = stripOrder o₂) (hsb : stripBook b₁ = stripBook b₂) :
    stripBook (addToOrderBook o₁ b₁) = stripBook (addToOrderBook o₂ b₂) := by
  obtain ⟨hbpair, hbids, hasks⟩ := stripBook_fields hsb
  have hsid : o₁.side = o₂.side := (stripOrder_fields hso).2.2.2.2.2.2
  rw [addToOrderBook, addToOrderBook, ← hsid]
  by_cases hside : o₁.side = "BUY"
  · rw [if_pos hside, if_pos hside]
    exact stripBook_of _ _ hbpair (strip_addToSide hso hbids) hasks
  · rw [if_neg hside, if_neg hside]
    exact stripBook_of _ _ hbpair hbids (strip_addToSide hso hasks)

theorem strip_removeEntry : ∀ {l₁ l₂ : List OrderBookEntry},
    l₁.map stripEntry = l₂.map stripEntry → ∀ oid,
    (removeEntry l₁ oid).map (fun pr => (stripEntry pr.1, pr.2.map stripEntry)) =
      (removeEntry l₂ oid).map (fun pr => (stripEntry pr.1, pr.2.map stripEntry)) := by
  intro l₁
  induction l₁ with
  | nil =>
    intro l₂ h oid
    rw [List.map_nil] at h
    have h2 : l₂ = [] := List.map_eq_nil_iff.mp h.symm
    subst h2
    rfl
  | cons e₁ rest₁ ih =>
    intro l₂ h oid
    cases l₂ with
    | nil => rw [List.map_cons, List.map_nil] at h; exact absurd h (by simp)
    | cons e₂ rest₂ =>
      rw [List.map_cons, List.map_cons] at h
      injection h with he ht
      have hid : e₁.order_id = e₂.order_id := (stripEntry_fields he).1
      rw [removeEntry, removeEntry, ← hid]
      by_cases hk : e₁.order_id = oid
      · rw [if_pos hk, if_pos hk]
        show some (stripEntry e₁, rest₁.map stripEntry) =
          some (stripEntry e₂, rest₂.map stripEntry)
        rw [he, ht]
      · rw [if_neg hk, if_neg hk]
        have := ih ht oid
        cases hr₁ : removeEntry rest₁ oid with
        | none =>
          cases hr₂ : removeEntry rest₂ oid with
          | none => rfl
          | some pr₂ =>
            rw [hr₁, hr₂] at this
            exact absurd this (by simp)
        | some pr₁ =>
          cases hr₂ : removeEntry rest₂ oid with
          | none =>
            rw [hr₁, hr₂] at this
            exact absurd this (by simp)
          | some pr₂ =>
            rw [hr₁, hr₂] at this
            have this2 : (stripEntry pr₁.1, pr₁.2.map stripEntry) =
                (stripEntry pr₂.1, pr₂.2.map stripEntry) := by
              have h3 : some (stripEntry pr₁.1, pr₁.2.map stripEntry) =
                  some (stripEntry pr₂.1, pr₂.2.map stripEntry) := this
              injection h3
            have h1 : stripEntry pr₁.1 = stripEntry pr₂.1 := congrArg Prod.fst this2
            have h2 : pr₁.2.map stripEntry = pr₂.2.map stripEntry := congrArg Prod.snd this2
            show some (stripEntry pr₁.1, (e₁ :: pr₁.2).map stripEntry) =
              some (stripEntry pr₂.1, (e₂ :: pr₂.2).map stripEntry)
            rw [List.map_cons, List.map_cons, h1, h2, he]

theorem strip_removedAmountOfSide {o₁ o₂ : Order} {s₁ s₂ : OrderBookSide}
    (hso : stripOrder o₁ = stripOrder o₂) (hss : stripSide s₁ = stripSide s₂) :
    removedAmountOfSide o₁ s₁ = removedAmountOfSide o₂ s₂ := by
  obtain ⟨_, _, _, hoid, _, hlim, _⟩ := stripOrder_fields hso
  have hmap := (stripSide_fields hss).1
  have hlk := strip_alLookup hmap o₁.limit_price
  cases hL₁ : alLookup s₁.priceLevels o₁.limit_price with
  | none =>
    have hL₂ : alLookup s₂.priceLevels o₂.limit_price = none := by
      rw [← hlim]
      cases hL₂b : alLookup s₂.priceLevels o₁.limit_price with
      | none => rfl
      | some L₂ => rw [hL₁, hL₂b] at hlk; exact absurd hlk (by simp)
    have e1 : removedAmountOfSide o₁ s₁ = 0 := by
      rw [removedAmountOfSide, hL₁]
    have e2 : removedAmountOfSide o₂ s₂ = 0 := by
      rw [removedAmountOfSide, hL₂]
    rw [e1, e2]
  | some L₁ =>
    cases hL₂b : alLookup s₂.priceLevels o₁.limit_price with
    | none => rw [hL₁, hL₂b] at hlk; exact absurd hlk (by simp)
    | some L₂ =>
      have hL₂ : alLookup s₂.priceLevels o₂.limit_price = some L₂ := by
        rw [← hlim]; exact hL₂b
      rw [hL₁, hL₂b] at hlk
      have hLs : stripLevel L₁ = stripLevel L₂ := by injection hlk
      have hre := strip_removeEntry (stripLevel_fields hLs).2.2 o₁.order_id
      cases hr₁ : removeEntry L₁.orders o₁.order_id with
      | none =>
        have hr₂ : removeEntry L₂.orders o₂.order_id = none := by
          rw [← hoid]
          cases hr₂b : removeEntry L₂.orders o₁.order_id with
          | none => rfl
          | some pr₂ => rw [hr₁, hr₂b] at hre; exact absurd hre (by simp)
        have e1 : removedAmountOfSide o₁ s₁ = 0 := by
          rw [removedAmountOfSide, hL₁]
          have h2 : (match removeEntry L₁.orders o₁.order_id with
              | none => (0 : ℚ)
              | some pr => pr.1.amount) = 0 := by rw [hr₁]
          exact h2
        have e2 : removedAmountOfSide o₂ s₂ = 0 := by
          rw [removedAmountOfSide, hL₂]
          have h2 : (match removeEntry L₂.orders o₂.order_id with
              | none => (0 : ℚ)
              | some pr => pr.1.amount) = 0 := by rw [hr₂]
          exact h2
        rw [e1, e2]
      | some pr₁ =>
        cases hr₂b : removeEntry L₂.orders o₁.order_id with
        | none => rw [hr₁, hr₂b] at hre; exact absurd hre (by simp)
        | some pr₂ =>
          have hr₂ : removeEntry L₂.orders o₂.order_id = some pr₂ := by
            rw [← hoid]; exact hr₂b
          rw [hr₁, hr₂b] at hre
          have hpr : (stripEntry pr₁.1, pr₁.2.map stripEntry) =
              (stripEntry pr₂.1, pr₂.2.map stripEntry) := by
            have h3 : some (stripEntry pr₁.1, pr₁.2.map stripEntry) =
                some (stripEntry pr₂.1, pr₂.2.map stripEntry) := hre
            injection h3
          have hpe : stripEntry pr₁.1 = stripEntry pr₂.1 := congrArg Prod.fst hpr
          have e1 : removedAmountOfSide o₁ s₁ = pr₁.1.amount := by
            rw [removedAmountOfSide, hL₁]
            have h2 : (match removeEntry L₁.orders o₁.order_id with
                | none => (0 : ℚ)
                | some pr => pr.1.amount) = pr₁.1.amount := by rw [hr₁]
            exact h2
          have e2 : removedAmountOfSide o₂ s₂ = pr₂.1.amount := by
            rw [removedAmountOfSide, hL₂]
            have h2 : (match removeEntry L₂.orders o₂.order_id with
                | none => (0 : ℚ)
                | some pr => pr.1.amount) = pr₂.1.amount := by rw [hr₂]
            exact h2
          rw [e1, e2]
          exact (stripEntry_fields hpe).2.2.1

theorem strip_removeFromSide {o₁ o₂ : Order} {s₁ s₂ : OrderBookSide}
    (hso : stripOrder o₁ = stripOrder o₂) (hss : stripSide s₁ = stripSide s₂) :
    (removeFromSide o₁ s₁).map stripSide = (removeFromSide o₂ s₂).map stripSide := by
  obtain ⟨_, _, _, hoid, _, hlim, _⟩ := stripOrder_fields hso
  have hmap := (stripSide_fields hss).1
  have hprices := (stripSide_fields hss).2
  have hlk := strip_alLookup hmap o₁.limit_price
  cases hL₁ : alLookup s₁.priceLevels o₁.limit_price with
  | none =>
    cases hL₂ : alLookup s₂.priceLevels o₂.limit_price with
    | some L₂ =>
      rw [← hlim] at hL₂
      rw [hL₁, hL₂] at hlk
      exact absurd hlk (by simp)
    | none =>
      rw [removeFromSide_noLevel hL₁, removeFromSide_noLevel hL₂]
  | some L₁ =>
    cases hL₂ : alLookup s₂.priceLevels o₂.limit_price with
    | none =>
      rw [← hlim] at hL₂
      rw [hL₁, hL₂] at hlk
      exact absurd hlk (by simp)
    | some L₂ =>
      have hL₂b : alLookup s₂.priceLevels o₁.limit_price = some L₂ := by rw [hlim]; exact hL₂
      rw [hL₁, hL₂b] at hlk
      have hLs : stripLevel L₁ = stripLevel L₂ := by injection hlk
      obtain ⟨hLp, hLv, hLo⟩ := stripLevel_fields hLs
      have hre := strip_removeEntry hLo o₁.order_id
      cases hr₁ : removeEntry L₁.orders o₁.order_id with
      | none =>
        have hr₂ : removeEntry L₂.orders o₂.order_id = none := by
          rw [← hoid]
          cases hr₂b : removeEntry L₂.orders o₁.order_id with
          | none => rfl
          | some pr₂ => rw [hr₁, hr₂b] at hre; exact absurd hre (by simp)
        rw [removeFromSide_noEntry hL₁ hr₁, removeFromSide_noEntry hL₂ hr₂]
      | some pr₁ =>
        cases hr₂b : removeEntry L₂.orders o₁.order_id with
        | none => rw [hr₁, hr₂b] at hre; exact absurd hre (by simp)
        | some pr₂ =>
          rw [hr₁, hr₂b] at hre
          have hpr : (stripEntry pr₁.1, pr₁.2.map stripEntry) =
              (stripEntry pr₂.1, pr₂.2.map stripEntry) := by
            have h3 : some (stripEntry pr₁.1, pr₁.2.map stripEntry) =
                some (stripEntry pr₂.1, pr₂.2.map stripEntry) := hre
            injection h3
          have hpe : stripEntry pr₁.1 = stripEntry pr₂.1 := congrArg Prod.fst hpr
          have hpl : pr₁.2.map stripEntry = pr₂.2.map stripEntry := congrArg Prod.snd hpr
          have hr₂ : removeEntry L₂.orders o₂.order_id = some (pr₂.1, pr₂.2) := by
            rw [← hoid, hr₂b]
          have hamt2 : pr₁.1.amount = pr₂.1.amount := (stripEntry_fields hpe).2.2.1
          rw [removeFromSide_found hL₁ hr₁, removeFromSide_found hL₂ hr₂, ← hlim, ← hprices]
          by_cases hemp : pr₁.2 = []
          · have hemp₂ : pr₂.2 = [] := by
              rw [hemp, List.map_nil] at hpl
              exact List.map_eq_nil_iff.mp hpl.symm
            rw [if_pos hemp, if_pos hemp₂]
            show some _ = some _
            refine congrArg some (stripSide_of _ _ ?_ rfl)
            exact strip_alErase hmap o₁.limit_price
          · have hemp₂ : ¬ pr₂.2 = [] := by
              intro hc
              rw [hc, List.map_nil] at hpl
              exact hemp (List.map_eq_nil_iff.mp hpl)
            rw [if_neg hemp, if_neg hemp₂]
            show some _ = some _
            refine congrArg some (stripSide_of _ _ ?_ rfl)
            refine strip_alSet hmap ?_ o₁.limit_price
            show (⟨L₁.price, pr₁.2.map stripEntry, decSub L₁.totalVolume pr₁.1.amount⟩ :
              PriceLevel) = _
            rw [hLp, hpl, hLv, hamt2]
            rfl

theorem strip_removeFromOrderBook {o₁ o₂ : Order} {b₁ b₂ : OrderBook}
    (hso : stripOrder o₁ = stripOrder o₂) (hsb : stripBook b₁ = stripBook b₂) :
    (removeFromOrderBook o₁ b₁).1 = (removeFromOrderBook o₂ b₂).1 ∧
    stripBook (removeFromOrderBook o₁ b₁).2 = stripBook (removeFromOrderBook o₂ b₂).2 := by
  obtain ⟨hbpair, hbids, hasks⟩ := stripBook_fields hsb
  have hsid : o₁.side = o₂.side := (stripOrder_fields hso).2.2.2.2.2.2
  have hsides : stripSide (if o₁.side = "BUY" then b₁.bids else b₁.asks) =
      stripSide (if o₂.side = "BUY" then b₂.bids else b₂.asks) := by
    rw [← hsid]
    by_cases hside : o₁.side = "BUY"
    · rw [if_pos hside, if_pos hside]
      exact hbids
    · rw [if_neg hside, if_neg hside]
      exact hasks
  have hrs := strip_removeFromSide hso hsides
  cases h₁ : removeFromSide o₁ (if o₁.side = "BUY" then b₁.bids else b₁.asks) with
  | none =>
    cases h₂ : removeFromSide o₂ (if o₂.side = "BUY" then b₂.bids else b₂.asks) with
    | some side₂ =>
      rw [h₁, h₂] at hrs
      exact absurd hrs (by simp)
    | none =>
      rw [removeFromOrderBook_of_none h₁, removeFromOrderBook_of_none h₂]
      exact ⟨rfl, hsb⟩
  | some side₁ =>
    cases h₂ : removeFromSide o₂ (if o₂.side = "BUY" then b₂.bids else b₂.asks) with
    | none =>
      rw [h₁, h₂] at hrs
      exact absurd hrs (by simp)
    | some side₂ =>
      rw [h₁, h₂] at hrs
      have hsides' : stripSide side₁ = stripSide side₂ := by
        have h3 : some (stripSide side₁) = some (stripSide side₂) := hrs
        injection h3
      rw [removeFromOrderBook_of_some h₁, removeFromOrderBook_of_some h₂]
      refine ⟨rfl, ?_⟩
      dsimp only
      rw [← hsid]
      by_cases hside : o₁.side = "BUY"
      · rw [if_pos hside, if_pos hside]
        exact stripBook_of _ _ hbpair hsides' hasks
      · rw [if_neg hside, if_neg hside]
        exact stripBook_of _ _ hbpair hbids hsides'

theorem strip_blLookup : ∀ {m₁ m₂ : List (String × OrderBook)},
    m₁.map stripBKV = m₂.map stripBKV → ∀ p,
    (alLookup m₁ p).map stripBook = (alLookup m₂ p).map stripBook := by
  intro m₁
  induction m₁ with
  | nil =>
    intro m₂ h p
    rw [List.map_nil] at h
    have h2 : m₂ = [] := List.map_eq_nil_iff.mp h.symm
    subst h2
    rfl
  | cons kv₁ rest₁ ih =>
    intro m₂ h p
    cases m₂ with
    | nil => rw [List.map_cons, List.map_nil] at h; exact absurd h (by simp)
    | cons kv₂ rest₂ =>
      rw [List.map_cons, List.map_cons] at h
      injection h with hkv ht
      have hfst0 := congrArg Prod.fst hkv
      have hfst : kv₁.1 = kv₂.1 := hfst0
      have hsnd0 := congrArg Prod.snd hkv
      have hsnd : stripBook kv₁.2 = stripBook kv₂.2 := hsnd0
      rw [alLookup, alLookup]
      by_cases hk : kv₁.1 = p
      · rw [if_pos hk, if_pos (hfst ▸ hk)]
        show some (stripBook kv₁.2) = some (stripBook kv₂.2)
        rw [hsnd]
      · rw [if_neg hk, if_neg (hfst ▸ hk)]
        exact ih ht p

theorem strip_blSet : ∀ {m₁ m₂ : List (String × OrderBook)},
    m₁.map stripBKV = m₂.map stripBKV → ∀ {v₁ v₂ : OrderBook},
    stripBook v₁ = stripBook v₂ → ∀ p,
    (alSet m₁ p v₁).map stripBKV = (alSet m₂ p v₂).map stripBKV := by
  intro m₁
  induction m₁ with
  | nil =>
    intro m₂ h v₁ v₂ hv p
    rw [List.map_nil] at h
    have h2 : m₂ = [] := List.map_eq_nil_iff.mp h.symm
    subst h2
    rw [alSet, alSet, List.map_singleton, List.map_singleton]
    simp only [stripBKV]
    rw [hv]
  | cons kv₁ rest₁ ih =>
    intro m₂ h v₁ v₂ hv p
    cases m₂ with
    | nil => rw [List.map_cons, List.map_nil] at h; exact absurd h (by simp)
    | cons kv₂ rest₂ =>
      rw [List.map_cons, List.map_cons] at h
      injection h with hkv ht
      have hfst0 := congrArg Prod.fst hkv
      have hfst : kv₁.1 = kv₂.1 := hfst0
      rw [alSet, alSet]
      by_cases hk : kv₁.1 = p
      · rw [if_pos hk, if_pos (hfst ▸ hk)]
        rw [List.map_cons, List.map_cons, ht]
        simp only [stripBKV]
        rw [hv]
      · rw [if_neg hk, if_neg (hfst ▸ hk)]
        rw [List.map_cons, List.map_cons, hkv, ih ht hv p]

theorem strip_ensureBook {st₁ st₂ : ServiceState}
    (h : st₁.orderBooks.map stripBKV = st₂.orderBooks.map stripBKV) (p : String) :
    (ensureBook st₁ p).map stripBKV = (ensureBook st₂ p).map stripBKV := by
  have hlk := strip_blLookup h p
  rw [ensureBook, ensureBook]
  cases h₁ : alLookup st₁.orderBooks p with
  | none =>
    cases h₂ : alLookup st₂.orderBooks p with
    | some b₂ => rw [h₁, h₂] at hlk; exact absurd hlk (by simp)
    | none =>
      rw [if_pos rfl, if_pos rfl, List.map_append, List.map_append, h]
  | some b₁ =>
    cases h₂ : alLookup st₂.orderBooks p with
    | none => rw [h₁, h₂] at hlk; exact absurd hlk (by simp)
    | some b₂ =>
      rw [if_neg (fun hc => Option.noConfusion hc), if_neg (fun hc => Option.noConfusion hc)]
      exact h

theorem strip_workingBook {st₁ st₂ : ServiceState}
    (h : st₁.orderBooks.map stripBKV = st₂.orderBooks.map stripBKV) (p : String) :
    stripBook (workingBook st₁ p) = stripBook (workingBook st₂ p) := by
  have hlk := strip_blLookup (strip_ensureBook h p) p
  rw [workingBook, workingBook]
  cases h₁ : alLookup (ensureBook st₁ p) p with
  | none =>
    cases h₂ : alLookup (ensureBook st₂ p) p with
    | some b₂ => rw [h₁, h₂] at hlk; exact absurd hlk (by simp)
    | none => rfl
  | some b₁ =>
    cases h₂ : alLookup (ensureBook st₂ p) p with
    | none => rw [h₁, h₂] at hlk; exact absurd hlk (by simp)
    | some b₂ =>
      rw [h₁, h₂] at hlk
      have : stripBook b₁ = stripBook b₂ := by injection hlk
      exact this

theorem strip_processOrder (c₁ c₂ : ℕ → ℤ) {st₁ st₂ : ServiceState} {o₁ o₂ : Order}
    (hss : stripState st₁ = stripState st₂) (hso : stripOrder o₁ = stripOrder o₂) :
    stripState (processOrder c₁ st₁ o₁) = stripState (processOrder c₂ st₂ o₂) := by
  obtain ⟨hbooks, htrades, htid, hci⟩ := stripState_fields hss
  obtain ⟨htyp, hacct, hamt, hoid, hpair, hlim, hsid⟩ := stripOrder_fields hso
  have hwb : stripBook ((alLookup (ensureBook st₁ o₁.pair) o₁.pair).getD (emptyBook o₁.pair)) =
      stripBook ((alLookup (ensureBook st₂ o₂.pair) o₂.pair).getD (emptyBook o₂.pair)) := by
    rw [← hpair]
    exact strip_workingBook hbooks o₁.pair
  by_cases hop1 : o₁.type_op = "CREATE"
  · have hop2 : o₂.type_op = "CREATE" := htyp ▸ hop1
    rw [processOrder_create c₁ st₁ o₁ hop1, processOrder_create c₂ st₂ o₂ hop2]
    dsimp only
    rw [← htid, ← hci]
    have hmo := strip_matchOrder c₁ c₂ hso hwb st₁.nextTradeId st₁.clockIdx
    refine stripState_of _ _ ?_ ?_ ?_ ?_
    · show (alSet (ensureBook st₁ o₁.pair) o₁.pair _).map stripBKV =
        (alSet (ensureBook st₂ o₂.pair) o₂.pair _).map stripBKV
      have hbook2 : stripBook (if 0 < o₁.amount then
            addToOrderBook o₁ (matchOrder c₁ o₁
              ((alLookup (ensureBook st₁ o₁.pair) o₁.pair).getD (emptyBook o₁.pair))
              st₁.nextTradeId st₁.clockIdx).book
          else (matchOrder c₁ o₁
              ((alLookup (ensureBook st₁ o₁.pair) o₁.pair).getD (emptyBook o₁.pair))
              st₁.nextTradeId st₁.clockIdx).book) =
          stripBook (if 0 < o₂.amount then
            addToOrderBook o₂ (matchOrder c₂ o₂
              ((alLookup (ensureBook st₂ o₂.pair) o₂.pair).getD (emptyBook o₂.pair))
              st₁.nextTradeId st₁.clockIdx).book
          else (matchOrder c₂ o₂
              ((alLookup (ensureBook st₂ o₂.pair) o₂.pair).getD (emptyBook o₂.pair))
              st₁.nextTradeId st₁.clockIdx).book) := by
        rw [← hamt]
        by_cases h0 : 0 < o₁.amount
        · rw [if_pos h0, if_pos h0]
          exact strip_addToOrderBook hso hmo.2.1
        · rw [if_neg h0, if_neg h0]
          exact hmo.2.1
      rw [← hpair] at hbook2 ⊢
      exact strip_blSet (strip_ensureBook hbooks o₁.pair) hbook2 o₁.pair
    · show (st₁.trades ++ _).map stripTrade = (st₂.trades ++ _).map stripTrade
      rw [List.map_append, List.map_append, htrades, hmo.1]
    · exact hmo.2.2.1
    · exact hmo.2.2.2
  · have hop1₂ : ¬ o₂.type_op = "CREATE" := htyp ▸ hop1
    by_cases hop2 : o₁.type_op = "DELETE"
    · have hop2₂ : o₂.type_op = "DELETE" := htyp ▸ hop2
      rw [processOrder_delete c₁ st₁ o₁ hop1 hop2, processOrder_delete c₂ st₂ o₂ hop1₂ hop2₂]
      dsimp only
      have hrb := strip_removeFromOrderBook hso hwb
      refine stripState_of _ _ ?_ ?_ htid hci
      · show (alSet (ensureBook st₁ o₁.pair) o₁.pair _).map stripBKV =
          (alSet (ensureBook st₂ o₂.pair) o₂.pair _).map stripBKV
        have h2 := hrb.2
        rw [← hpair] at h2 ⊢
        exact strip_blSet (strip_ensureBook hbooks o₁.pair) h2 o₁.pair
      · exact htrades
    · have hop2₂ : ¬ o₂.type_op = "DELETE" := htyp ▸ hop2
      rw [processOrder_other c₁ st₁ o₁ hop1 hop2, processOrder_other c₂ st₂ o₂ hop1₂ hop2₂]
      refine stripState_of _ _ ?_ htrades htid hci
      show (ensureBook st₁ o₁.pair).map stripBKV = (ensureBook st₂ o₂.pair).map stripBKV
      rw [← hpair]
      exact strip_ensureBook hbooks o₁.pair

theorem strip_processRawOrders (c₁ c₂ : ℕ → ℤ) : ∀ (raws : List RawOrder)
    {st₁ st₂ : ServiceState}, stripState st₁ = stripState st₂ →
    (processRawOrders c₁ raws st₁).map stripState = (processRawOrders c₂ raws st₂).map stripState
  | [], st₁, st₂, hss => by
    rw [processRawOrders, processRawOrders]
    show Except.ok (stripState st₁) = Except.ok (stripState st₂)
    rw [hss]
  | raw :: rest, st₁, st₂, hss => by
    obtain ⟨hbooks, htrades, htid, hci⟩ := stripState_fields hss
    rw [processRawOrders, processRawOrders, processRawOrder, processRawOrder]
    by_cases hv : validateOrder raw
    · rw [if_pos hv, if_pos hv]
      dsimp only
      have hso : stripOrder (createOrder raw (c₁ st₁.clockIdx)) =
          stripOrder (createOrder raw (c₂ st₂.clockIdx)) := rfl
      have hss2 : stripState { st₁ with clockIdx := st₁.clockIdx + 1 } =
          stripState { st₂ with clockIdx := st₂.clockIdx + 1 } := by
        refine stripState_of _ _ hbooks htrades htid ?_
        show st₁.clockIdx + 1 = st₂.clockIdx + 1
        rw [hci]
      exact strip_processRawOrders c₁ c₂ rest (strip_processOrder c₁ c₂ hss2 hso)
    · rw [if_neg hv, if_neg hv]

theorem strip_runService (c₁ c₂ : ℕ → ℤ) (raws : List RawOrder) :
    (runService c₁ raws).map stripState = (runService c₂ raws).map stripState := by
  rw [runService, runService]
  exact strip_processRawOrders c₁ c₂ raws rfl

/-! Serialization commutes with timestamp stripping. -/

theorem alLookup_map_stripKV (m : List (ℚ × PriceLevel)) (p : ℚ) :
    alLookup (m.map stripKV) p = (alLookup m p).map stripLevel := by
  induction m with
  | nil => rfl
  | cons kv rest ih =>
    show (if kv.1 = p then some (stripLevel kv.2) else alLookup (rest.map stripKV) p) =
      (if kv.1 = p then some kv.2 else alLookup rest p).map stripLevel
    by_cases hk : kv.1 = p
    · rw [if_pos hk, if_pos hk]
      rfl
    · rw [if_neg hk, if_neg hk]
      exact ih

theorem sideEntries_strip (s : OrderBookSide) :
    sideEntries (stripSide s) = (sideEntries s).map stripEntry := by
  show ((s.prices.map (fun p =>
      match alLookup (s.priceLevels.map stripKV) p with
      | some L => L.orders
      | none => ([] : List OrderBookEntry))).flatten) =
    ((s.prices.map (fun p =>
      match alLookup s.priceLevels p with
      | some L => L.orders
      | none => ([] : List OrderBookEntry))).flatten).map stripEntry
  induction s.prices with
  | nil => rfl
  | cons p rest ih =>
    rw [List.map_cons, List.map_cons, List.flatten_cons, List.flatten_cons, List.map_append, ih]
    congr 1
    rw [alLookup_map_stripKV]
    cases alLookup s.priceLevels p with
    | none => rfl
    | some L => rfl

theorem serializedBooks_strip (st : ServiceState) :
    serializedBooks (stripState st) =
      (serializedBooks st).map (fun kv =>
        (kv.1, kv.2.1.map stripEntry, kv.2.2.map stripEntry)) := by
  show (st.orderBooks.map stripBKV).map
      (fun kv => (kv.1, sideEntries kv.2.bids, sideEntries kv.2.asks)) =
    (st.orderBooks.map (fun kv => (kv.1, sideEntries kv.2.bids, sideEntries kv.2.asks))).map
      (fun kv => (kv.1, kv.2.1.map stripEntry, kv.2.2.map stripEntry))
  induction st.orderBooks with
  | nil => rfl
  | cons kv rest ih =>
    rw [List.map_cons, List.map_cons, List.map_cons, ih]
    congr 1
    show (kv.1, sideEntries (stripSide kv.2.bids), sideEntries (stripSide kv.2.asks)) =
      (kv.1, (sideEntries kv.2.bids).map stripEntry, (sideEntries kv.2.asks).map stripEntry)
    rw [sideEntries_strip, sideEntries_strip]

/-! The ten claims of the specification, one theorem per claim id. -/

set_option maxRecDepth 8000 in
/-- C1: refuted on the source (code bug).  MatchingEngine.matchOrder
decrements only a shallow copy of the taker order, so the amount visible
to the caller after match returns is the original amount, not the
original minus the traded total; on a BUY of 10 that fully crosses a
resting SELL of 10 (a single trade of amount 10) the service still sees
amount 10 > 0 and rests the fully filled taker B1 with its complete
original amount on the bids. -/
theorem c1_full_fill_still_rests :
    (runService clockZero [rawSell1, rawBuy1]).map (fun st =>
      (st.trades.map Trade.amount,
        (bookAt st "BTC/USDC").map (fun b =>
          (sideEntries b.bids).map (fun e => (e.order_id, e.amount))))) =
      Except.ok ([10], some [("B1", 10)]) := by
  decide

set_option maxRecDepth 8000 in
/-- C2, counterexample to the literal claim: after the fully crossing run
the emptied 50000 ask level has been deleted from the keyed priceLevels
map, yet its price is still present in the prices array of the ask side,
so the two key sets are not in one-to-one correspondence after a
processed command. -/
theorem c2_counterexample :
    (runService clockZero [rawSell1, rawBuy1]).map (fun st =>
      (bookAt st "BTC/USDC").map (fun b =>
        (b.asks.priceLevels.map Prod.fst, b.asks.prices))) =
      Except.ok (some ([], [50000])) := by
  decide

/-- C2, amended: after every processed command the correspondence holds in
one direction only: every key of the priceLevels map of either side is
present in that side's prices array and the keys carry no duplicates; the
converse inclusion fails because matching deletes an emptied level from
the map without touching the prices array. -/
theorem c2_amended (c : ℕ → ℤ) (raws : List RawOrder) (st : ServiceState)
    (h : runService c raws = Except.ok st) :
    ∀ kv ∈ st.orderBooks,
      ((∀ lv ∈ kv.2.bids.priceLevels, lv.1 ∈ kv.2.bids.prices) ∧
        (kv.2.bids.priceLevels.map Prod.fst).Nodup) ∧
      ((∀ lv ∈ kv.2.asks.priceLevels, lv.1 ∈ kv.2.asks.prices) ∧
        (kv.2.asks.priceLevels.map Prod.fst).Nodup) := by
  have h2 : processRawOrders c raws initState = Except.ok st := h
  have hwf := processRawOrders_wf h2 (fun kv hkv => absurd hkv (List.not_mem_nil kv))
  intro kv hkv
  exact ⟨⟨(hwf kv hkv).1.1, (hwf kv hkv).1.2.1⟩, ⟨(hwf kv hkv).2.1, (hwf kv hkv).2.2.1⟩⟩

set_option maxRecDepth 8000 in
/-- Witness for c2_amended on the concrete crossing run. -/
theorem c2_amended_witness :
    runService clockZero [rawSell1, rawBuy1] = Except.ok runPairState ∧
    ∀ kv ∈ runPairState.orderBooks,
      ((∀ lv ∈ kv.2.bids.priceLevels, lv.1 ∈ kv.2.bids.prices) ∧
        (kv.2.bids.priceLevels.map Prod.fst).Nodup) ∧
      ((∀ lv ∈ kv.2.asks.priceLevels, lv.1 ∈ kv.2.asks.prices) ∧
        (kv.2.asks.priceLevels.map Prod.fst).Nodup) :=
  ⟨by decide, c2_amended clockZero [rawSell1, rawBuy1] runPairState (by decide)⟩

/-- C3: conservation of volume, confirmed.  For every audited run from a
fresh service (every prefix of a longer batch being itself such a run) the
audited state is exactly the service state, and the total traded volume
plus the total resting volume equals the CREATE volume minus the volume
removed by the DELETEs that returned true. -/
theorem c3_conservation (c : ℕ → ℤ) (raws : List RawOrder) (st : ServiceState) (acc : AuditAcc)
    (h : runAudit c raws (initState, emptyAcc) = Except.ok (st, acc)) :
    processRawOrders c raws initState = Except.ok st ∧
    tradesVolume st.trades + restingVolume st = acc.created - acc.deleted := by
  refine ⟨runAudit_ok h, ?_⟩
  have hc := runAudit_conservation h
  have h0 : tradesVolume initState.trades + restingVolume initState -
      (emptyAcc.created - emptyAcc.deleted) = 0 := by
    simp [tradesVolume, restingVolume, initState, emptyAcc]
  rw [h0] at hc
  linarith [hc]

set_option maxRecDepth 8000 in
/-- Witness for c3_conservation on the concrete crossing run: 10 traded
plus 10 resting equals 20 created minus 0 deleted. -/
theorem c3_witness :
    runAudit clockZero [rawSell1, rawBuy1] (initState, emptyAcc) =
      Except.ok (runPairState, runPairAcc) ∧
    (processRawOrders clockZero [rawSell1, rawBuy1] initState = Except.ok runPairState ∧
      tradesVolume runPairState.trades + restingVolume runPairState =
        runPairAcc.created - runPairAcc.deleted) :=
  ⟨by decide,
    c3_conservation clockZero [rawSell1, rawBuy1] runPairState runPairAcc (by decide)⟩

set_option maxRecDepth 8000 in
/-- C4: Scenario B, confirmed.  Three resting BUYs (ids 1, 2, 3, amount 10
each, at 49000, 50000, 51000) followed by a SELL of 25 limited at 49000
produce exactly the trades (maker 3, 10 at 51000), (maker 2, 10 at
50000), (maker 1, 5 at 49000) in that order, and the final bid side holds
exactly one entry, id 1 of amount 5 at price 49000. -/
theorem c4_scenario :
    (runService clockZero [scnBuy1, scnBuy2, scnBuy3, scnSell4]).map (fun st =>
      (st.trades.map (fun t => (t.maker_order_id, t.amount, t.price)),
        (bookAt st "BTC/USDC").map (fun b =>
          (sideEntries b.bids).map (fun e => (e.order_id, e.amount, e.limit_price))))) =
      Except.ok ([("3", 10, 51000), ("2", 10, 50000), ("1", 5, 49000)],
        some [("1", 5, 49000)]) := by
  decide

/-- C5: cancel semantics, confirmed.  A DELETE whose (side, limit_price)
names no level, or whose level holds no entry with the command order id,
returns false and leaves the book untouched; when the entry exists the
cancel returns true, splices out exactly that entry, decrements the level
volume by the entry amount (exact decimal subtraction), deletes the level
and erases its price from the prices array when the level emptied, and
the book volume drops by exactly the entry amount. -/
theorem c5_cancel (order : Order) (book : OrderBook) :
    (removeFromSide order (if order.side = "BUY" then book.bids else book.asks) = none ↔
      alLookup (if order.side = "BUY" then book.bids else book.asks).priceLevels
          order.limit_price = none ∨
        ∃ L, alLookup (if order.side = "BUY" then book.bids else book.asks).priceLevels
            order.limit_price = some L ∧ ∀ x ∈ L.orders, x.order_id ≠ order.order_id) ∧
    (removeFromSide order (if order.side = "BUY" then book.bids else book.asks) = none →
      removeFromOrderBook order book = (false, book)) ∧
    (∀ L e rest,
      alLookup (if order.side = "BUY" then book.bids else book.asks).priceLevels
        order.limit_price = some L →
      removeEntry L.orders order.order_id = some (e, rest) →
      removeFromOrderBook order book = (true,
        if order.side = "BUY" then
          { book with bids :=
            if rest = [] then
              (⟨alErase (if order.side = "BUY" then book.bids else book.asks).priceLevels
                  order.limit_price,
                eraseFirstPrice (if order.side = "BUY" then book.bids else book.asks).prices
                  order.limit_price⟩ : OrderBookSide)
            else
              ⟨alSet (if order.side = "BUY" then book.bids else book.asks).priceLevels
                  order.limit_price ⟨L.price, rest, decSub L.totalVolume e.amount⟩,
                (if order.side = "BUY" then book.bids else book.asks).prices⟩ }
        else
          { book with asks :=
            if rest = [] then
              (⟨alErase (if order.side = "BUY" then book.bids else book.asks).priceLevels
                  order.limit_price,
                eraseFirstPrice (if order.side = "BUY" then book.bids else book.asks).prices
                  order.limit_price⟩ : OrderBookSide)
            else
              ⟨alSet (if order.side = "BUY" then book.bids else book.asks).priceLevels
                  order.limit_price ⟨L.price, rest, decSub L.totalVolume e.amount⟩,
                (if order.side = "BUY" then book.bids else book.asks).prices⟩ }) ∧
      decSub L.totalVolume e.amount = L.totalVolume - e.amount ∧
      bookVolume (removeFromOrderBook order book).2 = bookVolume book - e.amount) := by
  refine ⟨removeFromSide_none_iff order (if order.side = "BUY" then book.bids else book.asks),
    fun h => removeFromOrderBook_of_none h, ?_⟩
  intro L e rest hL hR
  have hrs := removeFromSide_found hL hR
  have hro := removeFromOrderBook_of_some hrs
  refine ⟨hro, decSub_eq _ _, ?_⟩
  have hv := removeFromOrderBook_volume order book
  have h1 : (removeFromOrderBook order book).1 = true := by rw [hro]
  rw [h1, if_pos rfl] at hv
  have hram : removedAmountOf order book = e.amount := by
    rw [removedAmountOf, removedAmountOfSide, hL]
    have h2 : (match removeEntry L.orders order.order_id with
        | none => (0 : ℚ)
        | some pr => pr.1.amount) = e.amount := by rw [hR]
    exact h2
  rw [hram] at hv
  exact hv

/-- Witness for c5_cancel: cancelling B1 in the book where it rests alone
at level 50000 returns true and drops the book volume by 10. -/
theorem c5_witness :
    alLookup (if orderDelB1.side = "BUY" then runPairBook.bids
        else runPairBook.asks).priceLevels orderDelB1.limit_price =
      some ⟨50000, [⟨"B1", "1", 10, 50000, 0⟩], 10⟩ ∧
    removeEntry [⟨"B1", "1", 10, 50000, 0⟩] "B1" = some (⟨"B1", "1", 10, 50000, 0⟩, []) ∧
    (removeFromOrderBook orderDelB1 runPairBook).1 = true ∧
    bookVolume (removeFromOrderBook orderDelB1 runPairBook).2 =
      bookVolume runPairBook - 10 := by
  have h := (c5_cancel orderDelB1 runPairBook).2.2 ⟨50000, [⟨"B1", "1", 10, 50000, 0⟩], 10⟩
    ⟨"B1", "1", 10, 50000, 0⟩ [] (by decide) (by decide)
  refine ⟨by decide, by decide, ?_, h.2.2⟩
  rw [h.1]

set_option maxRecDepth 8000 in
/-- C6, counterexample to the literal claim: the same two commands run on
fresh services at two different wall times (the clock frozen at 0 and at
1) produce outputs that are not bit-identical: the trade log timestamps
differ. -/
theorem c6_counterexample :
    (runService clockZero [rawSell1, rawBuy1]).map (fun st =>
      st.trades.map Trade.timestamp) = Except.ok [0] ∧
    (runService clockOne [rawSell1, rawBuy1]).map (fun st =>
      st.trades.map Trade.timestamp) = Except.ok [1] ∧
    runService clockZero [rawSell1, rawBuy1] ≠ runService clockOne [rawSell1, rawBuy1] := by
  refine ⟨by decide, by decide, by decide⟩

/-- C6, amended: determinism up to timestamps.  Two runs of the same
command sequence on fresh services under any two wall clocks agree on
everything except the Date.now() samples: they fail identically, the
serialized book documents agree entry for entry once entry timestamps are
erased, and the trade logs agree field for field once trade timestamps
are erased. -/
theorem c6_deterministic_up_to_time (c₁ c₂ : ℕ → ℤ) (raws : List RawOrder) :
    (runService c₁ raws).map (fun st =>
      ((serializedBooks st).map (fun kv => (kv.1, kv.2.1.map stripEntry, kv.2.2.map stripEntry)),
        st.trades.map stripTrade)) =
    (runService c₂ raws).map (fun st =>
      ((serializedBooks st).map (fun kv => (kv.1, kv.2.1.map stripEntry, kv.2.2.map stripEntry)),
        st.trades.map stripTrade)) := by
  have h := strip_runService c₁ c₂ raws
  cases h₁ : runService c₁ raws with
  | error e₁ =>
    cases h₂ : runService c₂ raws with
    | error e₂ =>
      rw [h₁, h₂] at h
      have he : e₁ = e₂ := by
        have h3 : (Except.error e₁ : Except String ServiceState) = Except.error e₂ := h
        injection h3
      show (Except.error e₁ : Except String _) = Except.error e₂
      rw [he]
    | ok st₂ =>
      rw [h₁, h₂] at h
      have h3 : (Except.error e₁ : Except String ServiceState) =
        Except.ok (stripState st₂) := h
      exact Except.noConfusion h3
  | ok st₁ =>
    cases h₂ : runService c₂ raws with
    | error e₂ =>
      rw [h₁, h₂] at h
      have h3 : (Except.ok (stripState st₁) : Except String ServiceState) =
        Except.error e₂ := h
      exact Except.noConfusion h3
    | ok st₂ =>
      rw [h₁, h₂] at h
      have hs : stripState st₁ = stripState st₂ := by
        have h3 : (Except.ok (stripState st₁) : Except String ServiceState) =
          Except.ok (stripState st₂) := h
        injection h3
      have hb : (serializedBooks st₁).map
          (fun kv => (kv.1, kv.2.1.map stripEntry, kv.2.2.map stripEntry)) =
        (serializedBooks st₂).map
          (fun kv => (kv.1, kv.2.1.map stripEntry, kv.2.2.map stripEntry)) := by
        rw [← serializedBooks_strip, ← serializedBooks_strip, hs]
      have htr := (stripState_fields hs).2.1
      show Except.ok ((serializedBooks st₁).map
          (fun kv => (kv.1, kv.2.1.map stripEntry, kv.2.2.map stripEntry)),
        st₁.trades.map stripTrade) = Except.ok ((serializedBooks st₂).map
          (fun kv => (kv.1, kv.2.1.map stripEntry, kv.2.2.map stripEntry)),
        st₂.trades.map stripTrade)
      rw [hb, htr]

set_option maxRecDepth 8000 in
/-- C7, counterexample to the literal claim: under a wall clock frozen at
0 the two successively accepted commands are promoted with the same
timestamp 0, so the later command does not carry a strictly greater
timestamp; the timestamp is a Date.now() sample, not a per-service
ingestion counter. -/
theorem c7_counterexample :
    (runAudit clockZero [rawSell1, rawBuy1] (initState, emptyAcc)).map
        (fun pr => pr.2.stamps) = Except.ok [0, 0] ∧
    ¬ ([0, 0] : List ℤ).Pairwise (fun a b => a < b) := by
  refine ⟨by decide, by decide⟩

/-- C7, amended: the promotion timestamp is the wall clock sampled at a
strictly increasing per-service read position (one read per accepted
command, plus one per executed trade), so when the wall clock is monotone
the promotion timestamps of a run are nondecreasing in processing order;
strict increase is not guaranteed. -/
theorem c7_amended (c : ℕ → ℤ) (hc : Monotone c) (raws : List RawOrder)
    (st : ServiceState) (acc : AuditAcc)
    (h : runAudit c raws (initState, emptyAcc) = Except.ok (st, acc)) :
    acc.stamps.Pairwise (fun a b => a ≤ b) := by
  refine (runAudit_stamps hc h List.Pairwise.nil ?_).1
  intro s hs
  exact absurd hs (List.not_mem_nil s)

set_option maxRecDepth 8000 in
/-- Witness for c7_amended on the concrete crossing run under the frozen
clock: the two recorded stamps 0, 0 are nondecreasing. -/
theorem c7_witness :
    Monotone clockZero ∧
    runAudit clockZero [rawSell1, rawBuy1] (initState, emptyAcc) =
      Except.ok (runPairState, runPairAcc) ∧
    runPairAcc.stamps.Pairwise (fun a b => a ≤ b) :=
  ⟨monotone_const, by decide,
    c7_amended clockZero monotone_const [rawSell1, rawBuy1] runPairState runPairAcc
      (by decide)⟩

/-- C8, counterexample to the literal claim: the validator checks type_op
only for nonemptiness, so an otherwise well formed UPDATE command passes
validation, reaches the dispatch, and silently mutates the service state
by lazily creating the book for its pair. -/
theorem c8_counterexample :
    validateOrder rawUpdate = true ∧
    (runService clockZero [rawUpdate]).map (fun st =>
      (st.orderBooks.map Prod.fst, st.trades)) = Except.ok (["X/Y"], []) := by
  refine ⟨by decide, by decide⟩

/-- C8, amended: a command whose type_op is neither CREATE nor DELETE is
not rejected: whenever it passes validation (any nonempty type_op does,
the other fields being well formed) the service accepts it, advances the
clock position, lazily creates the book for its pair, and changes nothing
else -- no trades, no resting entries, no trade counter movement. -/
theorem c8_amended (c : ℕ → ℤ) (st : ServiceState) (raw : RawOrder)
    (hv : validateOrder raw = true) (h1 : ¬ raw.type_op = "CREATE")
    (h2 : ¬ raw.type_op = "DELETE") :
    processRawOrder c st raw = Except.ok
      ⟨ensureBook { st with clockIdx := st.clockIdx + 1 } raw.pair, st.trades,
        st.nextTradeId, st.clockIdx + 1⟩ := by
  rw [processRawOrder, if_pos hv]
  dsimp only
  rw [processOrder_other c { st with clockIdx := st.clockIdx + 1 }
    (createOrder raw (c st.clockIdx)) h1 h2]
  rfl

/-- Witness for c8_amended: the UPDATE command on a fresh service. -/
theorem c8_witness :
    validateOrder rawUpdate = true ∧ ¬ rawUpdate.type_op = "CREATE" ∧
    ¬ rawUpdate.type_op = "DELETE" ∧
    processRawOrder clockZero initState rawUpdate = Except.ok
      ⟨ensureBook { initState with clockIdx := initState.clockIdx + 1 } rawUpdate.pair,
        initState.trades, initState.nextTradeId, initState.clockIdx + 1⟩ :=
  ⟨by decide, by decide, by decide,
    c8_amended clockZero initState rawUpdate (by decide) (by decide) (by decide)⟩

/-- C9: own-side frame of the matching engine, confirmed.  matchOrder
mutates only the opposite side of the book: a BUY leaves the whole bids
component (keyed price levels, resting entries and the prices array)
exactly as it was, a SELL leaves the whole asks component; the pair is
untouched too. -/
theorem c9_own_side_frame (c : ℕ → ℤ) (order : Order) (book : OrderBook) (tid ci : ℕ) :
    (matchOrder c order book tid ci).book.pair = book.pair ∧
    (order.side = "BUY" → (matchOrder c order book tid ci).book.bids = book.bids) ∧
    (order.side = "SELL" → (matchOrder c order book tid ci).book.asks = book.asks) := by
  have h := matchOrder_main c order book tid ci
  refine ⟨h.1, h.2.1, fun hs => h.2.2.1 ?_⟩
  rw [hs]
  decide

/-- Witness for c9_own_side_frame: the crossing BUY leaves the bids of the
one-ask book untouched. -/
theorem c9_witness :
    orderBuy1.side = "BUY" ∧
    (matchOrder clockZero orderBuy1 bookAsk1 1 0).book.bids = bookAsk1.bids :=
  ⟨by decide, (c9_own_side_frame clockZero orderBuy1 bookAsk1 1 0).2.1 (by decide)⟩

/-- C10: strict positivity of resting amounts, confirmed.  After any run
from a fresh service, every entry resting in any price level of any book
has a strictly positive amount: a maker emptied during matching is
dequeued in the same fill step, and an incoming order rests only with a
validated, strictly positive amount. -/
theorem c10_positive_entries (c : ℕ → ℤ) (raws : List RawOrder) (st : ServiceState)
    (h : runService c raws = Except.ok st) :
    ∀ kv ∈ st.orderBooks,
      (∀ lv ∈ kv.2.bids.priceLevels, ∀ e ∈ lv.2.orders, 0 < e.amount) ∧
      (∀ lv ∈ kv.2.asks.priceLevels, ∀ e ∈ lv.2.orders, 0 < e.amount) := by
  have h2 : processRawOrders c raws initState = Except.ok st := h
  have hwf := processRawOrders_wf h2 (fun kv hkv => absurd hkv (List.not_mem_nil kv))
  intro kv hkv
  exact ⟨(hwf kv hkv).1.2.2, (hwf kv hkv).2.2.2⟩

set_option maxRecDepth 8000 in
/-- Witness for c10_positive_entries on the concrete crossing run. -/
theorem c10_witness :
    runService clockZero [rawSell1, rawBuy1] = Except.ok runPairState ∧
    ∀ kv ∈ runPairState.orderBooks,
      (∀ lv ∈ kv.2.bids.priceLevels, ∀ e ∈ lv.2.orders, 0 < e.amount) ∧
      (∀ lv ∈ kv.2.asks.priceLevels, ∀ e ∈ lv.2.orders, 0 < e.amount) :=
  ⟨by decide, c10_positive_entries clockZero [rawSell1, rawBuy1] runPairState (by decide)⟩
